import Mathlib

/-!
Verification of the iCalendar web-client repository against its specification.

This file shallowly embeds the Python modules `mcp_ical/models.py` (the
`RecurrenceRule` and `Event` data model, iCalendar RRULE / VALARM parsing) and
`web_client/app.py` (the natural-language command resolver: range-compensated
listing, fuzzy title resolution for update/delete, partial-update field
selection) into Lean, and proves or refutes the specification claims about
them.

Python `datetime` values are modelled by the `DT` structure (civil calendar
fields plus time of day down to microseconds, always timezone-naive, which is
what the code works with after its normalization step).  Python functions that
can raise become `Except String` / `Option` valued Lean functions.
-/

deriving instance DecidableEq for Except

namespace ICalSpec

/-- Model of a (naive) Python `datetime.datetime`: civil calendar fields plus
time of day, including microseconds.  Python stores exactly these components
and compares datetimes lexicographically on them. -/
structure DT where
  year : Nat
  month : Nat
  day : Nat
  hour : Nat
  minute : Nat
  second : Nat
  usec : Nat
deriving DecidableEq, Repr

/-- Mixed-radix key that realises the lexicographic order of `DT` fields for
every value satisfying the Python `datetime` range constraints (month ≤ 12,
day ≤ 31, hour ≤ 23, minute, second ≤ 59, usec ≤ 999999): each radix strictly
exceeds the corresponding field bound. -/
def DT.key (t : DT) : Nat :=
  (((((t.year * 16 + t.month) * 32 + t.day) * 32 + t.hour) * 64 + t.minute) * 64
      + t.second) * 1048576 + t.usec

/-- Boolean `≤` on datetimes (Python comparison of two `datetime` values). -/
def DT.leB (a b : DT) : Bool := a.key ≤ b.key

/-- Boolean `<` on datetimes. -/
def DT.ltB (a b : DT) : Bool := a.key < b.key

/-- Python `a.date() == b.date()`: equality of the civil-date components. -/
def DT.sameDate (a b : DT) : Bool :=
  a.year == b.year && a.month == b.month && a.day == b.day

/-- Python `t.time() == datetime.min.time()`: the time-of-day components
(including microseconds) are all zero. -/
def DT.isMidnight (t : DT) : Bool :=
  t.hour == 0 && t.minute == 0 && t.second == 0 && t.usec == 0

/-- Python `t.replace(hour=0, minute=0, second=0)`.  Note that the
microsecond component is left untouched, exactly as in the source. -/
def DT.replaceHMS0 (t : DT) : DT :=
  { t with hour := 0, minute := 0, second := 0 }

/-- Gregorian leap-year test (as in Python `calendar.isleap`). -/
def isLeap (y : Nat) : Bool :=
  y % 4 == 0 && (y % 100 != 0 || y % 400 == 0)

/-- Number of days in a month of a given year. -/
def daysInMonth (y m : Nat) : Nat :=
  if m == 2 then (if isLeap y then 29 else 28)
  else if m == 4 || m == 6 || m == 9 || m == 11 then 30
  else 31

/-- Days in all full years before year `y` (year 1 is the first year), as in
CPython `datetime._days_before_year`. -/
def daysBeforeYear (y : Nat) : Nat :=
  let p := y - 1
  p * 365 + p / 4 - p / 100 + p / 400

/-- Days in the months of year `y` strictly before month `m`. -/
def daysBeforeMonth (y : Nat) : Nat → Nat
  | 0 => 0
  | 1 => 0
  | m + 1 => daysBeforeMonth y m + daysInMonth y m

/-- Proleptic-Gregorian ordinal of a date (1-01-01 has ordinal 1), as in
Python `datetime.toordinal`. -/
def DT.toOrdinal (t : DT) : Nat :=
  daysBeforeYear t.year + daysBeforeMonth t.year t.month + t.day

/-- Scan for the month containing 0-based day-of-year `rem` of year `y`,
starting at month `m` with the given fuel; returns the month and the 1-based
day.  (Fuel 12 always suffices; structural recursion keeps the definition
kernel-reducible.) -/
def findMonthAux (y : Nat) : Nat → Nat → Nat → Nat × Nat
  | 0, m, rem => (m, rem + 1)
  | fuel + 1, m, rem =>
    if m < 12 ∧ daysInMonth y m ≤ rem then
      findMonthAux y fuel (m + 1) (rem - daysInMonth y m)
    else (m, rem + 1)

/-- Locate the month containing 0-based day-of-year `rem` of year `y`. -/
def findMonth (y m rem : Nat) : Nat × Nat := findMonthAux y 12 m rem

/-- Inverse of `DT.toOrdinal` (as in CPython `datetime._ord2ymd`): civil date
of an ordinal day number. -/
def fromOrdinal (n : Nat) : Nat × Nat × Nat :=
  let n0 := n - 1
  let n400 := n0 / 146097
  let r1 := n0 % 146097
  let n100 := r1 / 36524
  let r2 := r1 % 36524
  let n4 := r2 / 1461
  let r3 := r2 % 1461
  let n1 := r3 / 365
  let r4 := r3 % 365
  if n100 == 4 || n1 == 4 then
    (400 * n400 + 100 * n100 + 4 * n4 + n1, 12, 31)
  else
    let y := 400 * n400 + 100 * n100 + 4 * n4 + n1 + 1
    let (m, d) := findMonth y 1 r4
    (y, m, d)

/-- Python `t + timedelta(days=k)` (and subtraction for negative `k`): shifts
the civil date, leaving the time of day unchanged.  Out-of-range results
(where Python would raise `OverflowError`) are clamped; no claim exercises
them. -/
def DT.addDays (t : DT) (k : Int) : DT :=
  let o : Int := (t.toOrdinal : Int) + k
  let n : Nat := if o < 1 then 1 else o.toNat
  let y := (fromOrdinal n).1
  let m := (fromOrdinal n).2.1
  let d := (fromOrdinal n).2.2
  { t with year := y, month := m, day := d }

/-- Range constraints enforced by the Python `datetime` constructor. -/
def DT.valid (t : DT) : Prop :=
  1 ≤ t.year ∧ t.year ≤ 9999 ∧ 1 ≤ t.month ∧ t.month ≤ 12 ∧
  1 ≤ t.day ∧ t.day ≤ daysInMonth t.year t.month ∧
  t.hour ≤ 23 ∧ t.minute ≤ 59 ∧ t.second ≤ 59 ∧ t.usec ≤ 999999

instance (t : DT) : Decidable t.valid := by
  unfold DT.valid; infer_instance

/-- Convenience constructor for concrete datetimes. -/
def mkDT (y mo d h mi s us : Nat) : DT := ⟨y, mo, d, h, mi, s, us⟩

/-! ## Digit and integer-literal utilities -/

/-- Decimal digit character for a value below 10 (values ≥ 9 clamp to `9`;
only applied to values below 10). -/
def digChar : Nat → Char
  | 0 => '0' | 1 => '1' | 2 => '2' | 3 => '3' | 4 => '4'
  | 5 => '5' | 6 => '6' | 7 => '7' | 8 => '8' | _ => '9'

/-- Numeric value of a digit character (`'0'`..`'9'`; other characters are
never consulted, every use is guarded by `isDigit`). -/
def digVal (c : Char) : Nat :=
  match c with
  | '0' => 0 | '1' => 1 | '2' => 2 | '3' => 3 | '4' => 4
  | '5' => 5 | '6' => 6 | '7' => 7 | '8' => 8 | _ => 9

/-- Two-digit zero-padded decimal rendering (for values below 100). -/
def pad2 (n : Nat) : List Char := [digChar (n / 10), digChar (n % 10)]

/-- Four-digit zero-padded decimal rendering (for values below 10000). -/
def pad4 (n : Nat) : List Char :=
  [digChar (n / 1000), digChar (n / 100 % 10), digChar (n / 10 % 10), digChar (n % 10)]

/-- Value of a digit string, most significant digit first. -/
def digitsVal (l : List Char) : Nat := l.foldl (fun a c => a * 10 + digVal c) 0

/-- Whitespace characters stripped by Python `int(str)` (ASCII subset). -/
def isPyWS (c : Char) : Bool :=
  c == ' ' || c == '\t' || c == '\n' || c == '\x0d' || c == '\x0b' || c == '\x0c'

/-- Digit-with-underscores body of a Python integer literal: nonempty, starts
and ends with a digit, never two consecutive underscores, all characters
digits or underscores.  Returns the digits only. -/
def pyDigits : List Char → Option (List Char)
  | [] => none
  | [c] => if c.isDigit then some [c] else none
  | c :: c' :: rest =>
    if c.isDigit then
      if c' == '_' then
        match rest with
        | [] => none
        | r :: rs =>
          if r.isDigit then (pyDigits (r :: rs)).map (c :: ·) else none
      else (pyDigits (c' :: rest)).map (c :: ·)
    else none

/-- Sign handling of a Python integer literal, after whitespace removal. -/
def pyIntCore : List Char → Option Int
  | [] => none
  | c :: cs =>
    if c == '-' then (pyDigits cs).map (fun ds => -(digitsVal ds : Int))
    else if c == '+' then (pyDigits cs).map (fun ds => (digitsVal ds : Int))
    else (pyDigits (c :: cs)).map (fun ds => (digitsVal ds : Int))

/-- Model of Python `int(s)` for a decimal string: optional surrounding
whitespace, optional sign, digits possibly separated by single underscores.
Returns `none` where `int()` raises `ValueError`.  (Python additionally
accepts non-ASCII unicode digits; no input in this code base carries any.) -/
def pyInt (s : String) : Option Int :=
  pyIntCore (((s.toList.dropWhile isPyWS).reverse.dropWhile isPyWS).reverse)

/-! ## `strptime` for the two formats used by the code

CPython `datetime.strptime` compiles each format directive to a regular
expression (`_strptime.TimeRE`); the directives used here are
`%Y` = `\d\d\d\d`, `%m` = `1[0-2]|0[1-9]|[1-9]`,
`%d` = `3[01]|[12]\d|0[1-9]|[1-9]| [1-9]`, `%H` = `2[0-3]|[0-1]\d|\d`,
`%M` = `[0-5]\d|\d`, `%S` = `6[0-1]|[0-5]\d|\d`.  Alternatives are tried left
to right, the whole input must be consumed, and the resulting fields must
form a constructible `datetime` (year ≥ 1, day within the month, second ≤ 59).
Each field parser below returns the parsed value and remaining characters. -/

/-- `%Y`: exactly four digits. -/
def pYear4 : List Char → Option (Nat × List Char)
  | a :: b :: c :: d :: rest =>
    if a.isDigit && b.isDigit && c.isDigit && d.isDigit then
      some (((digVal a * 10 + digVal b) * 10 + digVal c) * 10 + digVal d, rest)
    else none
  | _ => none

/-- `%m`: `1[0-2]|0[1-9]|[1-9]`. -/
def pMonth : List Char → Option (Nat × List Char)
  | [] => none
  | c1 :: rest =>
    match rest with
    | c2 :: rest2 =>
      if c1 == '1' && '0' ≤ c2 && c2 ≤ '2' then some (10 + digVal c2, rest2)
      else if c1 == '0' && '1' ≤ c2 && c2 ≤ '9' then some (digVal c2, rest2)
      else if '1' ≤ c1 && c1 ≤ '9' then some (digVal c1, rest)
      else none
    | [] => if '1' ≤ c1 && c1 ≤ '9' then some (digVal c1, []) else none

/-- `%d`: `3[01]|[12]\d|0[1-9]|[1-9]| [1-9]`. -/
def pDay : List Char → Option (Nat × List Char)
  | [] => none
  | c1 :: rest =>
    match rest with
    | c2 :: rest2 =>
      if c1 == '3' && '0' ≤ c2 && c2 ≤ '1' then some (30 + digVal c2, rest2)
      else if ('1' ≤ c1 && c1 ≤ '2') && c2.isDigit then
        some (digVal c1 * 10 + digVal c2, rest2)
      else if c1 == '0' && '1' ≤ c2 && c2 ≤ '9' then some (digVal c2, rest2)
      else if '1' ≤ c1 && c1 ≤ '9' then some (digVal c1, rest)
      else if c1 == ' ' && '1' ≤ c2 && c2 ≤ '9' then some (digVal c2, rest2)
      else none
    | [] => if '1' ≤ c1 && c1 ≤ '9' then some (digVal c1, []) else none

/-- `%H`: `2[0-3]|[0-1]\d|\d`. -/
def pHour : List Char → Option (Nat × List Char)
  | [] => none
  | c1 :: rest =>
    match rest with
    | c2 :: rest2 =>
      if c1 == '2' && '0' ≤ c2 && c2 ≤ '3' then some (20 + digVal c2, rest2)
      else if ('0' ≤ c1 && c1 ≤ '1') && c2.isDigit then
        some (digVal c1 * 10 + digVal c2, rest2)
      else if c1.isDigit then some (digVal c1, rest)
      else none
    | [] => if c1.isDigit then some (digVal c1, []) else none

/-- `%M`: `[0-5]\d|\d`. -/
def pMinute : List Char → Option (Nat × List Char)
  | [] => none
  | c1 :: rest =>
    match rest with
    | c2 :: rest2 =>
      if ('0' ≤ c1 && c1 ≤ '5') && c2.isDigit then
        some (digVal c1 * 10 + digVal c2, rest2)
      else if c1.isDigit then some (digVal c1, rest)
      else none
    | [] => if c1.isDigit then some (digVal c1, []) else none

/-- `%S`: `6[0-1]|[0-5]\d|\d`. -/
def pSecond : List Char → Option (Nat × List Char)
  | [] => none
  | c1 :: rest =>
    match rest with
    | c2 :: rest2 =>
      if c1 == '6' && '0' ≤ c2 && c2 ≤ '1' then some (60 + digVal c2, rest2)
      else if ('0' ≤ c1 && c1 ≤ '5') && c2.isDigit then
        some (digVal c1 * 10 + digVal c2, rest2)
      else if c1.isDigit then some (digVal c1, rest)
      else none
    | [] => if c1.isDigit then some (digVal c1, []) else none

/-- Final constructibility check performed by `datetime(...)` on the fields
captured by `strptime`. -/
def dtFieldsOk (y m d h mi s : Nat) : Bool :=
  1 ≤ y && y ≤ 9999 && 1 ≤ d && d ≤ daysInMonth y m && h ≤ 23 && mi ≤ 59 && s ≤ 59

/-- `datetime.strptime(s, "%Y%m%dT%H%M%SZ")`, as an `Option`. -/
def strptimeUTC (s : String) : Option DT :=
  match pYear4 s.toList with
  | none => none
  | some (y, r1) =>
    match pMonth r1 with
    | none => none
    | some (m, r2) =>
      match pDay r2 with
      | none => none
      | some (d, r3) =>
        match r3 with
        | 'T' :: r4 =>
          match pHour r4 with
          | none => none
          | some (h, r5) =>
            match pMinute r5 with
            | none => none
            | some (mi, r6) =>
              match pSecond r6 with
              | none => none
              | some (sec, r7) =>
                match r7 with
                | ['Z'] =>
                  if dtFieldsOk y m d h mi sec then some ⟨y, m, d, h, mi, sec, 0⟩
                  else none
                | _ => none
        | _ => none

/-- `datetime.strptime(s, "%Y%m%d")`, as an `Option`. -/
def strptimeDate (s : String) : Option DT :=
  match pYear4 s.toList with
  | none => none
  | some (y, r1) =>
    match pMonth r1 with
    | none => none
    | some (m, r2) =>
      match pDay r2 with
      | none => none
      | some (d, r3) =>
        match r3 with
        | [] => if dtFieldsOk y m d 0 0 0 then some ⟨y, m, d, 0, 0, 0, 0⟩ else none
        | _ => none

/-! ## `datetime.fromisoformat` (the subset exercised by this code base) -/

/-- Exactly two digits. -/
def pTwo : List Char → Option (Nat × List Char)
  | a :: b :: rest =>
    if a.isDigit && b.isDigit then some (digVal a * 10 + digVal b, rest) else none
  | _ => none

/-- One to six fractional-second digits, scaled to microseconds. -/
def pFraction : List Char → Option (Nat × List Char)
  | l =>
    let ds := l.takeWhile (·.isDigit)
    let rest := l.dropWhile (·.isDigit)
    if ds.length < 1 || 6 < ds.length then none
    else some (digitsVal ds * 10 ^ (6 - ds.length), rest)

/-- Optional `:SS[.ffffff]` tail of an ISO time, given the parsed `HH:MM`. -/
def pIsoSecFrac : List Char → Option (Nat × Nat)
  | [] => some (0, 0)
  | ':' :: r =>
    match pTwo r with
    | none => none
    | some (s, r2) =>
      match r2 with
      | [] => some (s, 0)
      | '.' :: r3 =>
        match pFraction r3 with
        | some (us, []) => some (s, us)
        | _ => none
      | _ => none
  | _ => none

/-- Model of `datetime.fromisoformat` restricted to the grammar actually fed
to it by this code base (LLM-produced ISO 8601 strings):
`YYYY-MM-DD` optionally followed by `THH:MM[:SS[.f{1..6}]]`, all fields
zero-padded, no timezone suffix.  The full Python parser accepts further
variants (basic format, `,` fraction separator, offsets); none occur here.
Returns `none` where Python raises `ValueError`. -/
def fromisoformat (s : String) : Option DT :=
  match s.toList with
  | a :: b :: c :: d :: '-' :: r1 =>
    if a.isDigit && b.isDigit && c.isDigit && d.isDigit then
      let y := ((digVal a * 10 + digVal b) * 10 + digVal c) * 10 + digVal d
      match pTwo r1 with
      | none => none
      | some (m, r2) =>
        match r2 with
        | '-' :: r3 =>
          match pTwo r3 with
          | none => none
          | some (dd, r4) =>
            let finish : Nat → Nat → Nat → Nat → Option DT := fun h mi sec us =>
              if dtFieldsOk y m dd h mi sec && 1 ≤ m && m ≤ 12 then
                some ⟨y, m, dd, h, mi, sec, us⟩
              else none
            match r4 with
            | [] => finish 0 0 0 0
            | 'T' :: r5 =>
              match pTwo r5 with
              | none => none
              | some (h, r6) =>
                match r6 with
                | ':' :: r7 =>
                  match pTwo r7 with
                  | none => none
                  | some (mi, r8) =>
                    match pIsoSecFrac r8 with
                    | none => none
                    | some (sec, us) => finish h mi sec us
                | _ => none
            | _ => none
        | _ => none
    else none
  | _ => none

/-! ## String splitting helpers (Python `str.split` / key-value extraction) -/

/-- Python `s.split(sep)` for a single-character separator, on character
lists: always returns at least one (possibly empty) group. -/
def splitChar (sep : Char) : List Char → List (List Char)
  | [] => [[]]
  | c :: cs =>
    match splitChar sep cs with
    | [] => [[]]
    | g :: gs => if c == sep then [] :: g :: gs else (c :: g) :: gs

/-- Python `part.split('=', 1)` when `'=' in part`: the text before the first
`'='` and everything after it.  Returns `none` when no `'='` occurs. -/
def splitFirstEq : List Char → Option (List Char × List Char)
  | [] => none
  | c :: cs =>
    if c == '=' then some ([], cs)
    else (splitFirstEq cs).map (fun p => (c :: p.1, p.2))

/-- The `parts` dictionary of `RecurrenceRule.from_ical_string`, kept as the
insertion sequence of key/value pairs; Python dict assignment overwrites, so
lookups must take the last binding. -/
def partsOf (s : String) : List (String × String) :=
  (splitChar ';' s.toList).foldl
    (fun acc part =>
      match splitFirstEq part with
      | some (k, v) => acc ++ [(String.mk k, String.mk v)]
      | none => acc)
    []

/-- Lookup of the last binding of a key (Python dict semantics under
re-assignment). -/
def lookupLast (ps : List (String × String)) (k : String) : Option String :=
  (ps.reverse.find? (fun p => p.1 == k)).map (·.2)

/-- Python `c in s` for a single character. -/
def strContains (s : String) (c : Char) : Bool := s.toList.any (· == c)

/-! ## RecurrenceRule (`mcp_ical/models.py`) -/

/-- The `RecurrenceRule` pydantic model.  `frequency` carries the `Frequency`
`IntEnum` value (0 = DAILY, 1 = WEEKLY, 2 = MONTHLY, 3 = YEARLY) and
`days_of_week` the `Weekday` values (1 = SUNDAY .. 7 = SATURDAY). -/
structure RecurrenceRule where
  frequency : Nat
  interval : Int
  end_date : Option DT
  occurrence_count : Option Int
  days_of_week : Option (List Nat)
deriving DecidableEq, Repr

/-- Validated construction of a `RecurrenceRule`: pydantic first coerces and
checks the fields (`frequency` a `Frequency` member, `interval ≥ 1` from
`Field(ge=1)`, `days_of_week` entries `Weekday` members) and then runs the
`validate_end_conditions` model validator, which rejects values carrying both
`end_date` and `occurrence_count`.  Any violation raises a `ValidationError`,
modelled as `Except.error`. -/
def mkRecurrenceRule (frequency : Nat) (interval : Int) (end_date : Option DT)
    (occurrence_count : Option Int) (days_of_week : Option (List Nat)) :
    Except String RecurrenceRule :=
  if 3 < frequency then .error "frequency is not a valid Frequency"
  else if interval < 1 then .error "interval must be greater than or equal to 1"
  else if (days_of_week.getD []).any (fun w => w < 1 || 7 < w) then
    .error "days_of_week member is not a valid Weekday"
  else if end_date.isSome && occurrence_count.isSome then
    .error "Only one of end_date or occurrence_count can be set"
  else .ok ⟨frequency, interval, end_date, occurrence_count, days_of_week⟩

/-- The fixed `frequency_map` of `from_ical_string`. -/
def frequency_map (s : String) : Option Nat :=
  if s = "DAILY" then some 0
  else if s = "WEEKLY" then some 1
  else if s = "MONTHLY" then some 2
  else if s = "YEARLY" then some 3
  else none

/-- The fixed `weekday_map` of the `BYDAY` handling. -/
def weekday_map (s : String) : Option Nat :=
  if s = "SU" then some 1
  else if s = "MO" then some 2
  else if s = "TU" then some 3
  else if s = "WE" then some 4
  else if s = "TH" then some 5
  else if s = "FR" then some 6
  else if s = "SA" then some 7
  else none

/-- The `FREQ` handling of `from_ical_string`:
`frequency_map.get(parts.get('FREQ', 'DAILY'), 0)` — absent defaults to
`DAILY`, unknown names to 0. -/
def freqOf (parts : List (String × String)) : Nat :=
  (frequency_map ((lookupLast parts "FREQ").getD "DAILY")).getD 0

/-- The `UNTIL` value parse of `from_ical_string`: `%Y%m%dT%H%M%SZ` when the
value contains `T`, `%Y%m%d` otherwise (`none` models the swallowed
`ValueError`). -/
def untilParse (until_str : String) : Option DT :=
  if strContains until_str 'T' then strptimeUTC until_str else strptimeDate until_str

/-- The `BYDAY` handling of `from_ical_string`: comma-split the value, map
the codes known to `weekday_map` (skipping the rest), and keep the result
only if nonempty. -/
def bydayOf (parts : List (String × String)) : Option (List Nat) :=
  match lookupLast parts "BYDAY" with
  | none => none
  | some b =>
    let days := (splitChar ',' b.toList).filterMap (fun code => weekday_map (String.mk code))
    if days.isEmpty then none else some days

/-- The stage of `from_ical_string` operating on the tokenized `parts`
dictionary: `FREQ` defaults to `DAILY` (and unknown names map to 0);
`INTERVAL` defaults to `'1'` and is converted with `int()` (whose
`ValueError` propagates); `UNTIL`, when present, is parsed via `untilParse`,
failures being swallowed by `except ValueError: pass`; only when `UNTIL` is
absent is `COUNT` consulted (again via a bare `int()`); `BYDAY` maps known
two-letter codes and is kept only if nonempty.  The final constructor call
runs the pydantic validation. -/
def fromParts (parts : List (String × String)) : Except String RecurrenceRule :=
  let frequency := freqOf parts
  match pyInt ((lookupLast parts "INTERVAL").getD "1") with
  | none => .error "invalid literal for int() with base 10 (INTERVAL)"
  | some interval =>
    match lookupLast parts "UNTIL" with
    | some until_str =>
      mkRecurrenceRule frequency interval (untilParse until_str) none (bydayOf parts)
    | none =>
      match lookupLast parts "COUNT" with
      | some cstr =>
        match pyInt cstr with
        | none => .error "invalid literal for int() with base 10 (COUNT)"
        | some c => mkRecurrenceRule frequency interval none (some c) (bydayOf parts)
      | none => mkRecurrenceRule frequency interval none none (bydayOf parts)

/-- `RecurrenceRule.from_ical_string`: tokenize on `;` into KEY=VALUE pairs
and hand the resulting dictionary to `fromParts`. -/
def RecurrenceRule.from_ical_string (rrule_str : String) : Except String RecurrenceRule :=
  fromParts (partsOf rrule_str)

/-- A `RecurrenceRule` value obtainable from the validating constructor. -/
def RecurrenceRule.wf (r : RecurrenceRule) : Prop :=
  r.frequency ≤ 3 ∧ 1 ≤ r.interval ∧
  ¬(r.end_date.isSome = true ∧ r.occurrence_count.isSome = true) ∧
  ∀ w ∈ r.days_of_week.getD [], 1 ≤ w ∧ w ≤ 7

instance (r : RecurrenceRule) : Decidable r.wf := by
  unfold RecurrenceRule.wf; infer_instance

/-! ## `to_ical_string` (modelled from the spec) -/

/-- Decimal digits of a natural number, most significant first; driven by a
fuel argument so that the definition stays structurally recursive (the fuel
`n + 1` used by `natToChars` always suffices, since a number shrinks by a
factor of ten per step). -/
def natToCharsAux : Nat → Nat → List Char
  | 0, _ => []
  | fuel + 1, n =>
    if n < 10 then [digChar n]
    else natToCharsAux fuel (n / 10) ++ [digChar (n % 10)]

/-- Decimal digits of a natural number, most significant first. -/
def natToChars (n : Nat) : List Char := natToCharsAux (n + 1) n

/-- Decimal rendering of an integer (with a leading minus sign). -/
def intToChars (i : Int) : List Char :=
  if i < 0 then '-' :: natToChars i.natAbs else natToChars i.toNat

/-- Frequency names emitted for the `FREQ` key (inverse of `frequency_map`
on 0..3). -/
def freqName : Nat → String
  | 0 => "DAILY" | 1 => "WEEKLY" | 2 => "MONTHLY" | _ => "YEARLY"

/-- Two-letter codes emitted for `BYDAY` (inverse of `weekday_map` on 1..7). -/
def weekdayCode : Nat → String
  | 1 => "SU" | 2 => "MO" | 3 => "TU" | 4 => "WE" | 5 => "TH" | 6 => "FR" | _ => "SA"

/-- Separator-joined concatenation (Python `sep.join` for one-character
separators). -/
def joinSep (sep : Char) : List (List Char) → List Char
  | [] => []
  | [x] => x
  | x :: xs => x ++ sep :: joinSep sep xs

/-- `UNTIL` timestamp in the `%Y%m%dT%H%M%SZ` shape read back by
`from_ical_string` (sub-second information cannot be represented). -/
def fmtUNTIL (t : DT) : List Char :=
  pad4 t.year ++ pad2 t.month ++ pad2 t.day ++ 'T' ::
    (pad2 t.hour ++ pad2 t.minute ++ pad2 t.second ++ ['Z'])

/-- The `KEY=VALUE` items emitted by `to_ical_string`, in emission order:
FREQ and INTERVAL always, then UNTIL / COUNT / BYDAY when set. -/
def emitParts (r : RecurrenceRule) : List (List Char) :=
  ["FREQ=".toList ++ (freqName r.frequency).toList,
   "INTERVAL=".toList ++ intToChars r.interval]
  ++ (match r.end_date with
      | some e => ["UNTIL=".toList ++ fmtUNTIL e]
      | none => [])
  ++ (match r.occurrence_count with
      | some c => ["COUNT=".toList ++ intToChars c]
      | none => [])
  ++ (match r.days_of_week with
      | some l => ["BYDAY=".toList ++ joinSep ',' (l.map (fun w => (weekdayCode w).toList))]
      | none => [])

/-- Modelled from the spec: `RecurrenceRule.to_ical_string` is described in
the specification (an inverse of `from_ical_string` over the
FREQ/INTERVAL/UNTIL/COUNT/BYDAY subset that asserts the
end_date/occurrence_count mutual-exclusion invariant before emitting and
omits absent fields), but its implementation is not among the provided
sources (`src/` holds no serializer).  Emission order is
FREQ, INTERVAL, UNTIL, COUNT, BYDAY, joined with `;`. -/
def RecurrenceRule.to_ical_string (r : RecurrenceRule) : Except String String :=
  if r.end_date.isSome && r.occurrence_count.isSome then
    .error "Only one of end_date or occurrence_count can be set"
  else
    .ok (String.mk (joinSep ';' (emitParts r)))

/-! ## Event decoding (`Event.from_caldav_event` in `mcp_ical/models.py`) -/

/-- The fields of a `vevent` component as surfaced by the `vobject` layer:
`none` models an absent attribute (`hasattr` false / falsy).  `triggers`
lists, in document order, the stringified `TRIGGER` value of every `VALARM`
child that carries one.  Timezone-aware start/end values are already
normalized: the source immediately strips `tzinfo` without conversion, so
the model keeps naive `DT`s. -/
structure VEvent where
  summary : Option String
  dtstart : Option DT
  dtstartIsDate : Bool
  dtend : Option DT
  location : Option String
  description : Option String
  url : Option String
  triggers : List String
  rrule : Option String
  organizer : Option String
  attendees : List String
  last_modified : Option DT
deriving DecidableEq, Repr

/-- The decoded `Event` dataclass (the `_raw_event` back-reference and the
containing calendar's name are irrelevant to the claims and omitted;
`has_alarms` keeps its dataclass default, which `from_caldav_event` never
overrides). -/
structure Event where
  title : String
  start_time : Option DT
  end_time : Option DT
  identifier : String
  location : Option String
  notes : Option String
  alarms_minutes_offsets : Option (List Int)
  url : Option String
  all_day : Bool
  has_alarms : Bool := false
  organizer : Option String
  attendees : Option (List String)
  last_modified : Option DT
  recurrence_rule : Option RecurrenceRule
deriving DecidableEq, Repr

/-- `re.match(r'-PT(\d+)([HM])', trigger)` with the minutes-before
conversion: `re.match` anchors at the START of the string only, so any
string beginning with `-PT`, one or more digits and `H` or `M` matches,
whatever follows.  `H` contributes `N*60`, `M` contributes `N`. -/
def parseTrigger (s : String) : Option Int :=
  match s.toList with
  | '-' :: 'P' :: 'T' :: rest =>
    let ds := rest.takeWhile (·.isDigit)
    let after := rest.dropWhile (·.isDigit)
    if ds.isEmpty then none
    else
      match after with
      | 'H' :: _ => some ((digitsVal ds : Int) * 60)
      | 'M' :: _ => some (digitsVal ds : Int)
      | _ => none
  | _ => none

/-- A trigger string that consists, in its entirety, of `-PT`, one or more
digits and a final `H` or `M` (the reading of the pattern `-PT<N><H|M>` as
a full match). -/
def fullTriggerPattern (s : String) : Bool :=
  match s.toList with
  | '-' :: 'P' :: 'T' :: rest =>
    let ds := rest.takeWhile (·.isDigit)
    let after := rest.dropWhile (·.isDigit)
    !ds.isEmpty && (after == ['H'] || after == ['M'])
  | _ => false

/-- `Event.from_caldav_event`, given the best-effort identifier already
extracted by `_extract_event_id` and the event body (`none` when the parsed
payload has no `vevent` component).  Mirrors the source: a missing body
raises `ValueError("Event data has no vevent component")` (the identifier is
only logged, not part of the message); a present `RRULE` string is handed to
`RecurrenceRule.from_ical_string` OUTSIDE the final try/except, so its
errors propagate unwrapped; everything inside the final `try` (the
`last_modified` read and the dataclass constructor, which performs no
validation) cannot fail, leaving the identifier-bearing catch-all re-raise
unreachable. -/
def Event.from_caldav_event (identifier : String) (payload : Option VEvent) :
    Except String Event :=
  match payload with
  | none => .error "Event data has no vevent component"
  | some v =>
    let title := v.summary.getD "No Title"
    let alarms := v.triggers.filterMap parseTrigger
    match v.rrule with
    | some rs =>
      match RecurrenceRule.from_ical_string rs with
      | .error e => .error e
      | .ok rec =>
        .ok { title := title
              start_time := v.dtstart
              end_time := v.dtend
              identifier := identifier
              location := v.location
              notes := v.description
              alarms_minutes_offsets := if alarms.isEmpty then none else some alarms
              url := v.url
              all_day := v.dtstart.isSome && v.dtstartIsDate
              organizer := v.organizer
              attendees := if v.attendees.isEmpty then none else some v.attendees
              last_modified := v.last_modified
              recurrence_rule := some rec }
    | none =>
      .ok { title := title
            start_time := v.dtstart
            end_time := v.dtend
            identifier := identifier
            location := v.location
            notes := v.description
            alarms_minutes_offsets := if alarms.isEmpty then none else some alarms
            url := v.url
            all_day := v.dtstart.isSome && v.dtstartIsDate
            organizer := v.organizer
            attendees := if v.attendees.isEmpty then none else some v.attendees
            last_modified := v.last_modified
            recurrence_rule := none }

/-! ## Natural-language command execution (`web_client/app.py`) -/

/-- A single-quote character, kept out of string literals. -/
def sq : String := String.mk ['\x27']

/-- Python `str.lower()` (per-character lowering; identical on the ASCII and
CJK text this code handles). -/
def strLower (s : String) : String := String.mk (s.toList.map Char.toLower)

/-- Whether the first list is an initial segment of the second. -/
def leadsList : List Char → List Char → Bool
  | [], _ => true
  | _ :: _, [] => false
  | a :: as, b :: bs => a == b && leadsList as bs

/-- Whether the first list occurs contiguously inside the second. -/
def occursIn (pat : List Char) : List Char → Bool
  | [] => pat.isEmpty
  | c :: cs => leadsList pat (c :: cs) || occursIn pat cs

/-- Python `a in b` on strings: `a` occurs contiguously inside `b`. -/
def isSubstringOf (a b : String) : Bool := occursIn a.toList b.toList

/-- The fuzzy title match of the update/delete branches:
`search.lower() in title.lower() or title.lower() in search.lower()`. -/
def titleMatches (search title : String) : Bool :=
  isSubstringOf (strLower search) (strLower title) ||
    isSubstringOf (strLower title) (strLower search)

/-- Outcome of resolving a fuzzy update/delete target. -/
inductive ResolveOutcome where
  | notFound (message : String)
  | ambiguous (message : String) (candidates : List Event)
  | resolved (identifier : String) (title : String)
deriving DecidableEq, Repr

/-- The shared decision logic of the delete and update branches once the
candidate events are fetched: filter by the fuzzy title match (preserving
fetch order), then return `notFound` (message naming the title, prefixed
with the time-constraint note when one applied), the unique match's
identifier, or the full ambiguity list. -/
def resolveByTitle (search_title : String) (timeConstrained : Bool)
    (events : List Event) : ResolveOutcome :=
  let matching := events.filter (fun e => titleMatches search_title e.title)
  match matching with
  | [] =>
    .notFound ((if timeConstrained then "在指定时间范围内" else "")
      ++ "没有找到标题包含 " ++ sq ++ search_title ++ sq ++ " 的事件")
  | [e] => .resolved e.identifier e.title
  | es =>
    .ambiguous ("找到 " ++ String.mk (natToChars es.length) ++ " 个匹配的事件，请明确指定：") es

/-- The `list_events` branch's range plan: the executed query range plus the
local filter range, if any.  `is_single_day` is
`start.date() == end.date() and start.time() == end.time() ==
datetime.min.time()`; when it holds the query widens to
`[start - 15d, start + 30d]` with a local filter `[start, start + 1d)`,
otherwise the window is passed through with no filter. -/
def listEventsPlan (start finish : DT) : (DT × DT) × Option (DT × DT) :=
  let is_single_day := start.sameDate finish && start.isMidnight && finish.isMidnight
  if is_single_day then
    ((start.addDays (-15), start.addDays 30), some (start, start.addDays 1))
  else ((start, finish), none)

/-- Keep the events whose (present) start time lies in `[lo, hi)`; events
without a start time are skipped, as in the source loops. -/
def filterByStart (lo hi : DT) (events : List Event) : List Event :=
  events.filter (fun e =>
    match e.start_time with
    | none => false
    | some st => lo.leB st && st.ltB hi)

/-- The `list_events` branch end to end, over an abstract backend
(`calendar_manager.list_events`): execute the planned query, then apply the
local filter when one was planned. -/
def executeListEvents (backend : DT → DT → List Event) (start finish : DT) :
    List Event :=
  let plan := listEventsPlan start finish
  let events := backend plan.1.1 plan.1.2
  match plan.2 with
  | some (fs, fe) => filterByStart fs fe events
  | none => events

/-- The delete branch's target-day range: a present (truthy) `start_time`
parameter is parsed and truncated with `replace(hour=0, minute=0, second=0)`
(microseconds survive), a present `start_date` likewise; with neither the
result is `none` (no time constraint).  A parse failure propagates as the
`ValueError` of `datetime.fromisoformat`. -/
def deleteTargetRange (time_str date_str : Option String) :
    Except String (Option (DT × DT)) :=
  match time_str with
  | some ts =>
    match fromisoformat ts with
    | none => .error "Invalid isoformat string"
    | some t => .ok (some (t.replaceHMS0, t.replaceHMS0.addDays 1))
  | none =>
    match date_str with
    | some ds =>
      match fromisoformat ds with
      | none => .error "Invalid isoformat string"
      | some t => .ok (some (t.replaceHMS0, t.replaceHMS0.addDays 1))
    | none => .ok none

/-- The delete branch's executed query range: widened around a known target
day, or the `[now - 30d, now + 90d]` default.  (The source calls
`datetime.now()` twice in the default branch; both calls are modelled by the
single `now`.) -/
def deleteQueryRange (now : DT) (target : Option (DT × DT)) : DT × DT :=
  match target with
  | some (ts, _) => (ts.addDays (-15), ts.addDays 30)
  | none => (now.addDays (-30), now.addDays 90)

/-- The delete branch without an explicit `event_id`: compute the target
range, fetch over the widened/default query range, filter to the target day
when one was given, then run the shared fuzzy resolution.  `Option.none`
models an absent or empty (falsy) parameter, matching the source's
truthiness tests. -/
def deleteResolve (now : DT) (backend : DT → DT → List Event)
    (event_title : String) (time_str date_str : Option String) :
    Except String ResolveOutcome :=
  match deleteTargetRange time_str date_str with
  | .error e => .error e
  | .ok target =>
    let q := deleteQueryRange now target
    let fetched := backend q.1 q.2
    let events :=
      match target with
      | some (ts, te) => filterByStart ts te fetched
      | none => fetched
    .ok (resolveByTitle event_title (time_str.isSome || date_str.isSome) events)

/-- The update branch's search window: a present (truthy) `search_date` is
parsed and truncated with the same `replace(hour=0, minute=0, second=0)`
(single-day window, passed to the backend with NO widening), else the
`[now - 30d, now + 90d]` default. -/
def updateSearchWindow (now : DT) (search_date_str : Option String) :
    Except String (DT × DT) :=
  match search_date_str with
  | some s =>
    match fromisoformat s with
    | none => .error "Invalid isoformat string"
    | some d => .ok (d.replaceHMS0, d.replaceHMS0.addDays 1)
  | none => .ok (now.addDays (-30), now.addDays 90)

/-- The update branch without an explicit `event_id`: fetch the window and
run the shared fuzzy resolution. -/
def updateResolve (now : DT) (backend : DT → DT → List Event)
    (search_title : String) (search_date_str : Option String) :
    Except String ResolveOutcome :=
  match updateSearchWindow now search_date_str with
  | .error e => .error e
  | .ok w => .ok (resolveByTitle search_title search_date_str.isSome (backend w.1 w.2))

/-- The update-relevant keys of the LLM `params` object.  `some v` models a
key present with string value `v`; `none` models an absent key (a key
present with a JSON `null` behaves identically downstream and is folded into
`none`). -/
structure UpdateParams where
  title : Option String := none
  start_time : Option String := none
  end_time : Option String := none
  location : Option String := none
  description : Option String := none
deriving DecidableEq, Repr

/-- The `UpdateEventRequest` pydantic model of `mcp_ical/models.py`: every
field optional, `None` meaning "leave unchanged".  The fields this code path
never sets keep their `None` default. -/
structure UpdateEventRequest where
  title : Option String := none
  start_time : Option DT := none
  end_time : Option DT := none
  calendar_name : Option String := none
  location : Option String := none
  notes : Option String := none
  alarms_minutes_offsets : Option (List Int) := none
  url : Option String := none
  all_day : Option Bool := none
  recurrence_rule : Option RecurrenceRule := none
deriving DecidableEq, Repr

/-- The `update_fields` construction of the update branch:
`title` is added only when present AND different from `search_title`
(Python `params["title"] != search_title`, where an absent `search_title`
compares as `None` and so never suppresses the title); `start_time` and
`end_time` are parsed with `datetime.fromisoformat` (failures raise);
`location` is copied verbatim.  `description` is also copied into
`update_fields`, but `UpdateEventRequest` has no such field and pydantic's
default `extra="ignore"` silently drops the unknown keyword, so it never
reaches the request — the model reflects the resulting request object. -/
def buildUpdateRequest (search_title : Option String) (p : UpdateParams) :
    Except String UpdateEventRequest :=
  let titleField : Option String :=
    match p.title with
    | some t => if search_title == some t then none else some t
    | none => none
  let pst : Except String (Option DT) :=
    match p.start_time with
    | none => .ok none
    | some s =>
      match fromisoformat s with
      | none => .error "Invalid isoformat string"
      | some d => .ok (some d)
  let pet : Except String (Option DT) :=
    match p.end_time with
    | none => .ok none
    | some s =>
      match fromisoformat s with
      | none => .error "Invalid isoformat string"
      | some d => .ok (some d)
  match pst, pet with
  | .error e, _ => .error e
  | _, .error e => .error e
  | .ok st, .ok et =>
    .ok { title := titleField, start_time := st, end_time := et, location := p.location }

/-- Modelled from the spec: `CalendarManager.update_event` lives in
`mcp_ical/ical.py`, which is not among the provided sources.  The spec fixes
its contract (partial update: a request field that is `None` means "leave
unchanged", a set field replaces the stored value, and the backend applies
either all requested fields or none). -/
def applyUpdate (e : Event) (r : UpdateEventRequest) : Event :=
  { e with
    title := r.title.getD e.title
    start_time := match r.start_time with | some t => some t | none => e.start_time
    end_time := match r.end_time with | some t => some t | none => e.end_time
    location := match r.location with | some l => some l | none => e.location
    notes := match r.notes with | some n => some n | none => e.notes
    alarms_minutes_offsets :=
      match r.alarms_minutes_offsets with
      | some a => some a
      | none => e.alarms_minutes_offsets
    url := match r.url with | some u => some u | none => e.url
    all_day := r.all_day.getD e.all_day
    recurrence_rule :=
      match r.recurrence_rule with
      | some rr => some rr
      | none => e.recurrence_rule }

/-! ## Helper lemmas: digits and the fixed-format parsers -/

/-- Characters produced by `digChar` are benign: decimal digits that are not
whitespace, signs, separators or underscores. -/
def cleanDigit (c : Char) : Prop :=
  c.isDigit = true ∧ isPyWS c = false ∧ c ≠ '-' ∧ c ≠ '+' ∧ c ≠ ';' ∧
    c ≠ '=' ∧ c ≠ ',' ∧ c ≠ '_' ∧ c ≠ 'T'

instance (c : Char) : Decidable (cleanDigit c) := by
  unfold cleanDigit; infer_instance

lemma digChar_clean : ∀ k, k < 10 → cleanDigit (digChar k) := by decide

lemma digChar_isDigit : ∀ k, k < 10 → (digChar k).isDigit = true := by decide

lemma digVal_digChar : ∀ k, k < 10 → digVal (digChar k) = k := by decide

lemma pad2_mem {c : Char} {n : Nat} (hn : n ≤ 99) (h : c ∈ pad2 n) :
    ∃ k, k < 10 ∧ c = digChar k := by
  simp only [pad2, List.mem_cons, List.mem_singleton, List.not_mem_nil, or_false] at h
  rcases h with h | h
  · exact ⟨n / 10, by omega, h⟩
  · exact ⟨n % 10, by omega, h⟩

lemma pad4_mem {c : Char} {n : Nat} (hn : n ≤ 9999) (h : c ∈ pad4 n) :
    ∃ k, k < 10 ∧ c = digChar k := by
  simp only [pad4, List.mem_cons, List.mem_singleton, List.not_mem_nil, or_false] at h
  rcases h with h | h | h | h
  · exact ⟨n / 1000, by omega, h⟩
  · exact ⟨n / 100 % 10, by omega, h⟩
  · exact ⟨n / 10 % 10, by omega, h⟩
  · exact ⟨n % 10, by omega, h⟩

lemma daysInMonth_le_31 (y m : Nat) : daysInMonth y m ≤ 31 := by
  unfold daysInMonth
  split
  · split <;> omega
  · split <;> omega

lemma pYear4_pad4 (y : Nat) (hy : y ≤ 9999) (rest : List Char) :
    pYear4 (pad4 y ++ rest) = some (y, rest) := by
  show pYear4 (digChar (y / 1000) :: digChar (y / 100 % 10) :: digChar (y / 10 % 10) ::
      digChar (y % 10) :: rest) = some (y, rest)
  simp only [pYear4]
  rw [digChar_isDigit _ (by omega), digChar_isDigit _ (by omega),
    digChar_isDigit _ (by omega), digChar_isDigit _ (by omega)]
  simp only [Bool.and_self, if_true]
  rw [digVal_digChar _ (by omega), digVal_digChar _ (by omega),
    digVal_digChar _ (by omega), digVal_digChar _ (by omega)]
  have : ((y / 1000 * 10 + y / 100 % 10) * 10 + y / 10 % 10) * 10 + y % 10 = y := by omega
  rw [this]

lemma pMonth_pad2 (m : Nat) (h1 : 1 ≤ m) (h2 : m ≤ 12) (rest : List Char) :
    pMonth (pad2 m ++ rest) = some (m, rest) := by
  interval_cases m <;> simp [pad2, pMonth, digChar, digVal]

lemma pDay_pad2 (d : Nat) (h1 : 1 ≤ d) (h2 : d ≤ 31) (rest : List Char) :
    pDay (pad2 d ++ rest) = some (d, rest) := by
  interval_cases d <;> simp [pad2, pDay, digChar, digVal]

lemma pHour_pad2 (h : Nat) (h2 : h ≤ 23) (rest : List Char) :
    pHour (pad2 h ++ rest) = some (h, rest) := by
  interval_cases h <;> simp [pad2, pHour, digChar, digVal]

lemma pMinute_pad2 (m : Nat) (h2 : m ≤ 59) (rest : List Char) :
    pMinute (pad2 m ++ rest) = some (m, rest) := by
  interval_cases m <;> simp [pad2, pMinute, digChar, digVal]

lemma pSecond_pad2 (s : Nat) (h2 : s ≤ 59) (rest : List Char) :
    pSecond (pad2 s ++ rest) = some (s, rest) := by
  interval_cases s <;> simp [pad2, pSecond, digChar, digVal]

lemma strptimeUTC_fmtUNTIL (e : DT) (hv : e.valid) (hu : e.usec = 0) :
    strptimeUTC (String.mk (fmtUNTIL e)) = some e := by
  obtain ⟨y, mo, d, h, mi, s, us⟩ := e
  unfold DT.valid at hv
  dsimp only at hv hu
  obtain ⟨hy1, hy2, hm1, hm2, hd1, hd2, hh, hmi, hs, _⟩ := hv
  subst hu
  have hd31 : d ≤ 31 := le_trans hd2 (daysInMonth_le_31 _ _)
  show strptimeUTC (String.mk
    (pad4 y ++ pad2 mo ++ pad2 d ++ 'T' :: (pad2 h ++ pad2 mi ++ pad2 s ++ ['Z']))) = _
  unfold strptimeUTC
  show (match pYear4 (pad4 y ++ pad2 mo ++ pad2 d ++ 'T' ::
      (pad2 h ++ pad2 mi ++ pad2 s ++ ['Z'])) with
    | none => none
    | some (y, r1) => _) = _
  rw [List.append_assoc, List.append_assoc, pYear4_pad4 y hy2]
  simp only
  rw [pMonth_pad2 mo hm1 hm2]
  simp only
  rw [pDay_pad2 d hd1 hd31]
  simp only
  rw [List.append_assoc, List.append_assoc, pHour_pad2 h hh]
  simp only
  rw [pMinute_pad2 mi hmi]
  simp only
  rw [pSecond_pad2 s hs]
  simp only
  have hfields : dtFieldsOk y mo d h mi s = true := by
    simp only [dtFieldsOk, Bool.and_eq_true, decide_eq_true_eq]
    omega
  rw [hfields]
  simp

/-! ## Helper lemmas: decimal rendering round-trips through `int()` -/

lemma natToCharsAux_fuel : ∀ f₁ f₂ n, n < f₁ → n < f₂ →
    natToCharsAux f₁ n = natToCharsAux f₂ n := by
  intro f₁
  induction f₁ with
  | zero => omega
  | succ f ih =>
    intro f₂ n h1 h2
    cases f₂ with
    | zero => omega
    | succ f' =>
      show natToCharsAux (f + 1) n = natToCharsAux (f' + 1) n
      simp only [natToCharsAux]
      split
      · rfl
      · rw [ih f' (n / 10) (by omega) (by omega)]

lemma natToChars_unfold (n : Nat) :
    natToChars n = if n < 10 then [digChar n] else natToChars (n / 10) ++ [digChar (n % 10)] := by
  show natToCharsAux (n + 1) n = _
  simp only [natToCharsAux]
  split
  · rfl
  · rw [natToCharsAux_fuel n (n / 10 + 1) (n / 10) (by omega) (by omega)]
    rfl

lemma natToChars_mem (n : Nat) : ∀ c ∈ natToChars n, ∃ k, k < 10 ∧ c = digChar k := by
  induction n using Nat.strong_induction_on with
  | _ n ih =>
    intro c hc
    rw [natToChars_unfold] at hc
    by_cases h : n < 10
    · rw [if_pos h] at hc
      simp only [List.mem_singleton] at hc
      exact ⟨n, h, hc⟩
    · rw [if_neg h] at hc
      rcases List.mem_append.mp hc with h' | h'
      · exact ih (n / 10) (by omega) c h'
      · simp only [List.mem_singleton] at h'
        exact ⟨n % 10, by omega, h'⟩

lemma natToChars_ne_nil (n : Nat) : natToChars n ≠ [] := by
  rw [natToChars_unfold]
  split
  · simp
  · simp

lemma digitsVal_append (l : List Char) (c : Char) :
    digitsVal (l ++ [c]) = digitsVal l * 10 + digVal c := by
  simp [digitsVal, List.foldl_append]

lemma digitsVal_natToChars (n : Nat) : digitsVal (natToChars n) = n := by
  induction n using Nat.strong_induction_on with
  | _ n ih =>
    rw [natToChars_unfold]
    by_cases h : n < 10
    · rw [if_pos h]
      simp only [digitsVal, List.foldl_cons, List.foldl_nil]
      rw [digVal_digChar n h]
      omega
    · rw [if_neg h, digitsVal_append, ih (n / 10) (by omega), digVal_digChar _ (by omega)]
      omega

lemma pyDigits_all (l : List Char) (hne : l ≠ []) (hd : ∀ c ∈ l, c.isDigit = true) :
    pyDigits l = some l := by
  induction l with
  | nil => exact absurd rfl hne
  | cons c cs ih =>
    cases cs with
    | nil =>
      show pyDigits [c] = some [c]
      simp [pyDigits, hd c (by simp)]
    | cons c' rest =>
      have hc : c.isDigit = true := hd c (by simp)
      have hc' : c'.isDigit = true := hd c' (by simp)
      have hne' : (c' == '_') = false := by
        cases h : c' == '_'
        · rfl
        · rw [eq_of_beq h] at hc'
          simp at hc'
      rw [pyDigits.eq_def]
      simp only [hc, hne', if_true, Bool.false_eq_true, if_false]
      rw [ih (by simp) (fun x hx => hd x (by simp [hx]))]
      rfl

lemma dropWhile_all_false {p : Char → Bool} {l : List Char}
    (h : ∀ c ∈ l, p c = false) : l.dropWhile p = l := by
  cases l with
  | nil => rfl
  | cons c cs => simp [List.dropWhile, h c (by simp)]

lemma strip_ws_of_clean {l : List Char} (h : ∀ c ∈ l, isPyWS c = false) :
    ((l.dropWhile isPyWS).reverse.dropWhile isPyWS).reverse = l := by
  rw [dropWhile_all_false h, dropWhile_all_false (fun c hc => h c (List.mem_reverse.mp hc)),
    List.reverse_reverse]

lemma pyInt_natToChars (n : Nat) : pyInt (String.mk (natToChars n)) = some (n : Int) := by
  have hmem := natToChars_mem n
  have hclean : ∀ c ∈ natToChars n, isPyWS c = false := by
    intro c hc
    obtain ⟨k, hk, rfl⟩ := hmem c hc
    exact (digChar_clean k hk).2.1
  unfold pyInt
  rw [show (String.mk (natToChars n)).toList = natToChars n from rfl, strip_ws_of_clean hclean]
  obtain ⟨c, cs, hl⟩ : ∃ c cs, natToChars n = c :: cs := by
    cases h : natToChars n with
    | nil => exact absurd h (natToChars_ne_nil n)
    | cons c cs => exact ⟨c, cs, rfl⟩
  rw [hl]
  obtain ⟨k, hk, hck⟩ := hmem c (by rw [hl]; simp)
  have hcm : (c == '-') = false := by
    cases h : c == '-'
    · rfl
    · rw [eq_of_beq h] at hck
      exact absurd hck.symm (digChar_clean k hk).2.2.1
  have hcp : (c == '+') = false := by
    cases h : c == '+'
    · rfl
    · rw [eq_of_beq h] at hck
      exact absurd hck.symm (digChar_clean k hk).2.2.2.1
  rw [pyIntCore.eq_def]
  dsimp only
  simp only [hcm, hcp, Bool.false_eq_true, if_false]
  rw [← hl, pyDigits_all _ (natToChars_ne_nil n)
    (fun x hx => by obtain ⟨k', hk', rfl⟩ := hmem x hx; exact (digChar_clean k' hk').1)]
  simp [digitsVal_natToChars]

lemma pyInt_intToChars (i : Int) : pyInt (String.mk (intToChars i)) = some i := by
  by_cases hi : i < 0
  · unfold intToChars
    rw [if_pos hi]
    have hmem := natToChars_mem i.natAbs
    have hclean : ∀ c ∈ '-' :: natToChars i.natAbs, isPyWS c = false := by
      intro c hc
      rcases List.mem_cons.mp hc with rfl | hc'
      · rfl
      · obtain ⟨k, hk, rfl⟩ := hmem c hc'
        exact (digChar_clean k hk).2.1
    unfold pyInt
    rw [show (String.mk ('-' :: natToChars i.natAbs)).toList = '-' :: natToChars i.natAbs from rfl,
      strip_ws_of_clean hclean]
    show pyIntCore ('-' :: natToChars i.natAbs) = some i
    rw [pyIntCore.eq_def]
    simp only [beq_self_eq_true, if_true]
    rw [pyDigits_all _ (natToChars_ne_nil _)
      (fun x hx => by obtain ⟨k', hk', rfl⟩ := hmem x hx; exact (digChar_clean k' hk').1)]
    simp only [Option.map_some', digitsVal_natToChars]
    congr 1
    omega
  · unfold intToChars
    rw [if_neg hi, pyInt_natToChars]
    congr 1
    omega

/-! ## Helper lemmas: splitting is inverse to joining -/

lemma splitChar_no_sep {sep : Char} {l : List Char} (h : ∀ c ∈ l, c ≠ sep) :
    splitChar sep l = [l] := by
  induction l with
  | nil => rfl
  | cons c cs ih =>
    have hc : (c == sep) = false := by
      cases hb : c == sep
      · rfl
      · exact absurd (eq_of_beq hb) (h c (by simp))
    simp only [splitChar, ih (fun x hx => h x (by simp [hx])), hc, Bool.false_eq_true, if_false]

lemma splitChar_ne_nil (sep : Char) (l : List Char) : splitChar sep l ≠ [] := by
  cases l with
  | nil => simp [splitChar]
  | cons c cs =>
    simp only [splitChar]
    cases splitChar sep cs with
    | nil => simp
    | cons g gs =>
      by_cases hc : c = sep <;> simp [hc]

lemma splitChar_append_sep {sep : Char} {a b : List Char} (h : ∀ c ∈ a, c ≠ sep) :
    splitChar sep (a ++ sep :: b) = a :: splitChar sep b := by
  induction a with
  | nil =>
    show splitChar sep (sep :: b) = [] :: splitChar sep b
    simp only [splitChar, beq_self_eq_true, if_true]
    cases hs : splitChar sep b with
    | nil => exact absurd hs (splitChar_ne_nil sep b)
    | cons g gs => rfl
  | cons c cs ih =>
    have hc : (c == sep) = false := by
      cases hb : c == sep
      · rfl
      · exact absurd (eq_of_beq hb) (h c (by simp))
    show splitChar sep (c :: (cs ++ sep :: b)) = (c :: cs) :: splitChar sep b
    simp only [splitChar, ih (fun x hx => h x (by simp [hx])), hc, Bool.false_eq_true, if_false]

lemma joinSep_split {sep : Char} {gs : List (List Char)} (hne : gs ≠ [])
    (h : ∀ g ∈ gs, ∀ c ∈ g, c ≠ sep) :
    splitChar sep (joinSep sep gs) = gs := by
  induction gs with
  | nil => exact absurd rfl hne
  | cons g rest ih =>
    cases rest with
    | nil =>
      show splitChar sep (joinSep sep [g]) = [g]
      exact splitChar_no_sep (h g (by simp))
    | cons g' rest' =>
      show splitChar sep (g ++ sep :: joinSep sep (g' :: rest')) = g :: g' :: rest'
      rw [splitChar_append_sep (h g (by simp)),
        ih (by simp) (fun x hx => h x (by simp [hx]))]

lemma splitFirstEq_append {k v : List Char} (h : ∀ c ∈ k, c ≠ '=') :
    splitFirstEq (k ++ '=' :: v) = some (k, v) := by
  induction k with
  | nil => simp [splitFirstEq]
  | cons c cs ih =>
    have hc : (c == '=') = false := by
      cases hb : c == '='
      · rfl
      · exact absurd (eq_of_beq hb) (h c (by simp))
    show splitFirstEq (c :: (cs ++ '=' :: v)) = some (c :: cs, v)
    simp only [splitFirstEq, hc, Bool.false_eq_true, if_false,
      ih (fun x hx => h x (by simp [hx])), Option.map_some']

lemma partsOf_eq_aux :
    ∀ (gs : List (List Char)) (acc : List (String × String)),
      gs.foldl (fun acc part =>
        match splitFirstEq part with
        | some (k, v) => acc ++ [(String.mk k, String.mk v)]
        | none => acc) acc
      = acc ++ gs.filterMap (fun part =>
          (splitFirstEq part).map (fun p => (String.mk p.1, String.mk p.2))) := by
  intro gs
  induction gs with
  | nil => simp
  | cons g rest ih =>
    intro acc
    rw [List.foldl_cons]
    cases hf : splitFirstEq g with
    | none =>
      simp only [hf]
      rw [ih]
      simp [List.filterMap_cons, hf]
    | some kv =>
      obtain ⟨k, v⟩ := kv
      simp only [hf]
      rw [ih]
      simp [List.filterMap_cons, hf]

lemma partsOf_eq (s : String) :
    partsOf s = (splitChar ';' s.toList).filterMap (fun part =>
      (splitFirstEq part).map (fun p => (String.mk p.1, String.mk p.2))) := by
  unfold partsOf
  rw [partsOf_eq_aux]
  rfl

/-! ## Helper lemmas: dictionary lookups and the serialized shape -/

lemma lookupLast_nil (k : String) : lookupLast [] k = none := rfl

lemma lookupLast_cons (p : String × String) (ps : List (String × String)) (k : String) :
    lookupLast (p :: ps) k =
      (lookupLast ps k).or (if (p.1 == k) = true then some p.2 else none) := by
  unfold lookupLast
  rw [List.reverse_cons, List.find?_append]
  cases h : ps.reverse.find? (fun q => q.1 == k) with
  | none => cases hk : p.1 == k <;> simp [h, hk, List.find?]
  | some v => simp [h]

lemma freq_roundtrip : ∀ f, f ≤ 3 → frequency_map (freqName f) = some f := by decide

lemma weekday_roundtrip :
    ∀ w, 1 ≤ w → w ≤ 7 → weekday_map (String.mk (weekdayCode w).toList) = some w := by decide

lemma freqName_clean : ∀ f, f ≤ 3 → ∀ c ∈ (freqName f).toList, c ≠ ';' := by decide

lemma weekdayCode_clean :
    ∀ w, 1 ≤ w → w ≤ 7 → ∀ c ∈ (weekdayCode w).toList, c ≠ ';' ∧ c ≠ ',' := by decide

lemma intToChars_mem (i : Int) :
    ∀ c ∈ intToChars i, c = '-' ∨ ∃ k, k < 10 ∧ c = digChar k := by
  intro c hc
  unfold intToChars at hc
  split at hc
  · rcases List.mem_cons.mp hc with rfl | hc'
    · exact Or.inl rfl
    · exact Or.inr (natToChars_mem _ c hc')
  · exact Or.inr (natToChars_mem _ c hc)

lemma intToChars_no_semi (i : Int) : ∀ c ∈ intToChars i, c ≠ ';' := by
  intro c hc
  rcases intToChars_mem i c hc with rfl | ⟨k, hk, rfl⟩
  · simp
  · exact (digChar_clean k hk).2.2.2.2.1

lemma fmtUNTIL_mem (t : DT) (hv : t.valid) :
    ∀ c ∈ fmtUNTIL t, c = 'T' ∨ c = 'Z' ∨ ∃ k, k < 10 ∧ c = digChar k := by
  obtain ⟨hy1, hy2, hm1, hm2, hd1, hd2, hh, hmi, hs, _⟩ := hv
  have hd31 : t.day ≤ 31 := le_trans hd2 (daysInMonth_le_31 _ _)
  intro c hc
  unfold fmtUNTIL at hc
  simp only [List.append_assoc, List.mem_append, List.mem_cons, List.mem_singleton,
    List.not_mem_nil, or_false] at hc
  rcases hc with h | h | h | rfl | h | h | h | rfl
  · exact Or.inr (Or.inr (pad4_mem (by omega) h))
  · exact Or.inr (Or.inr (pad2_mem (by omega) h))
  · exact Or.inr (Or.inr (pad2_mem (by omega) h))
  · exact Or.inl rfl
  · exact Or.inr (Or.inr (pad2_mem (by omega) h))
  · exact Or.inr (Or.inr (pad2_mem (by omega) h))
  · exact Or.inr (Or.inr (pad2_mem (by omega) h))
  · exact Or.inr (Or.inl rfl)

lemma fmtUNTIL_no_semi (t : DT) (hv : t.valid) : ∀ c ∈ fmtUNTIL t, c ≠ ';' := by
  intro c hc
  rcases fmtUNTIL_mem t hv c hc with rfl | rfl | ⟨k, hk, rfl⟩
  · simp
  · simp
  · exact (digChar_clean k hk).2.2.2.2.1

lemma strContains_fmtUNTIL (t : DT) : strContains (String.mk (fmtUNTIL t)) 'T' = true := by
  show (fmtUNTIL t).any (· == 'T') = true
  unfold fmtUNTIL
  simp [List.any_append]

lemma untilParse_fmtUNTIL (t : DT) (hv : t.valid) (hu : t.usec = 0) :
    untilParse (String.mk (fmtUNTIL t)) = some t := by
  unfold untilParse
  rw [strContains_fmtUNTIL, if_pos rfl, strptimeUTC_fmtUNTIL t hv hu]

lemma filterMap_weekday (l : List Nat) (hw : ∀ w ∈ l, 1 ≤ w ∧ w ≤ 7) :
    l.filterMap (fun w => weekday_map (String.mk (weekdayCode w).toList)) = l := by
  induction l with
  | nil => rfl
  | cons w ws ih =>
    rw [List.filterMap_cons,
      weekday_roundtrip w (hw w (by simp)).1 (hw w (by simp)).2,
      ih (fun x hx => hw x (by simp [hx]))]

lemma byday_value (l : List Nat) (hne : l ≠ []) (hw : ∀ w ∈ l, 1 ≤ w ∧ w ≤ 7) :
    (splitChar ',' (joinSep ',' (l.map (fun w => (weekdayCode w).toList)))).filterMap
      (fun code => weekday_map (String.mk code)) = l := by
  rw [joinSep_split (by simpa using hne)
    (by
      intro g hg c hc
      obtain ⟨w, hwl, rfl⟩ := List.mem_map.mp hg
      exact (weekdayCode_clean w (hw w hwl).1 (hw w hwl).2 c hc).2),
    List.filterMap_map]
  exact filterMap_weekday l hw

lemma mk_ok (f : Nat) (i : Int) (e : Option DT) (c : Option Int) (d : Option (List Nat))
    (hf : f ≤ 3) (hi : 1 ≤ i)
    (hec : ¬(e.isSome = true ∧ c.isSome = true))
    (hd : ∀ w ∈ d.getD [], 1 ≤ w ∧ w ≤ 7) :
    mkRecurrenceRule f i e c d = .ok ⟨f, i, e, c, d⟩ := by
  unfold mkRecurrenceRule
  rw [if_neg (by omega), if_neg (by omega), if_neg, if_neg]
  · intro h
    rw [Bool.and_eq_true] at h
    exact hec ⟨h.1, h.2⟩
  · intro h
    obtain ⟨w, hwl, hww⟩ := List.any_eq_true.mp h
    rcases hd w hwl with ⟨h1, h7⟩
    simp only [Bool.or_eq_true, decide_eq_true_eq] at hww
    omega

lemma mk_ok_inv {f : Nat} {i : Int} {e : Option DT} {c : Option Int}
    {d : Option (List Nat)} {r : RecurrenceRule}
    (h : mkRecurrenceRule f i e c d = .ok r) : r = ⟨f, i, e, c, d⟩ := by
  unfold mkRecurrenceRule at h
  split at h
  · exact absurd h (by simp)
  · split at h
    · exact absurd h (by simp)
    · split at h
      · exact absurd h (by simp)
      · split at h
        · exact absurd h (by simp)
        · cases h
          rfl

lemma append_clean {a v : List Char} (ha : ∀ c ∈ a, c ≠ ';') (hv : ∀ c ∈ v, c ≠ ';') :
    ∀ c ∈ a ++ v, c ≠ ';' :=
  fun c hc => (List.mem_append.mp hc).elim (ha c) (hv c)

lemma partsOf_joinSep (G : List (List Char)) (hne : G ≠ [])
    (hclean : ∀ g ∈ G, ∀ ch ∈ g, ch ≠ ';') :
    partsOf (String.mk (joinSep ';' G)) = G.filterMap (fun part =>
      (splitFirstEq part).map (fun p => (String.mk p.1, String.mk p.2))) := by
  rw [partsOf_eq, show (String.mk (joinSep ';' G)).toList = joinSep ';' G from rfl,
    joinSep_split hne hclean]

lemma splitEq_FREQ (v : List Char) :
    splitFirstEq ("FREQ=".toList ++ v) = some ("FREQ".toList, v) := by
  rw [show "FREQ=".toList ++ v = "FREQ".toList ++ '=' :: v from rfl]
  exact splitFirstEq_append (by decide)

lemma splitEq_INTERVAL (v : List Char) :
    splitFirstEq ("INTERVAL=".toList ++ v) = some ("INTERVAL".toList, v) := by
  rw [show "INTERVAL=".toList ++ v = "INTERVAL".toList ++ '=' :: v from rfl]
  exact splitFirstEq_append (by decide)

lemma splitEq_UNTIL (v : List Char) :
    splitFirstEq ("UNTIL=".toList ++ v) = some ("UNTIL".toList, v) := by
  rw [show "UNTIL=".toList ++ v = "UNTIL".toList ++ '=' :: v from rfl]
  exact splitFirstEq_append (by decide)

lemma splitEq_COUNT (v : List Char) :
    splitFirstEq ("COUNT=".toList ++ v) = some ("COUNT".toList, v) := by
  rw [show "COUNT=".toList ++ v = "COUNT".toList ++ '=' :: v from rfl]
  exact splitFirstEq_append (by decide)

lemma splitEq_BYDAY (v : List Char) :
    splitFirstEq ("BYDAY=".toList ++ v) = some ("BYDAY".toList, v) := by
  rw [show "BYDAY=".toList ++ v = "BYDAY".toList ++ '=' :: v from rfl]
  exact splitFirstEq_append (by decide)

lemma mk_toList (s : String) : String.mk s.toList = s := rfl

lemma toList_mk (l : List Char) : (String.mk l).toList = l := rfl

lemma joinSep_mem {sep c : Char} {gs : List (List Char)} (h : c ∈ joinSep sep gs) :
    ∃ g, g ∈ gs ∧ (c ∈ g ∨ c = sep) := by
  induction gs with
  | nil => simp [joinSep] at h
  | cons g rest ih =>
    cases rest with
    | nil => exact ⟨g, by simp, Or.inl h⟩
    | cons g' rest' =>
      rcases List.mem_append.mp h with hc | hc
      · exact ⟨g, by simp, Or.inl hc⟩
      · rcases List.mem_cons.mp hc with rfl | hc'
        · exact ⟨g, by simp, Or.inr rfl⟩
        · obtain ⟨gg, hgg, hcg⟩ := ih hc'
          exact ⟨gg, by simp [hgg], hcg⟩

/-- The serialize–reparse round trip, by case analysis on which optional
keys are emitted.  The hypotheses are exactly: a constructible value
(`hf, hi, hexcl, hd`), a `days_of_week` that is not the empty list (an empty
list can never be recovered, since `from_ical_string` keeps `BYDAY` only if
nonempty), and an `end_date` within `datetime` range carrying no sub-second
part (the `UNTIL` wire format has second resolution). -/
lemma roundtrip_main (f : Nat) (i : Int) (e : Option DT) (c : Option Int)
    (d : Option (List Nat))
    (hf : f ≤ 3) (hi : 1 ≤ i) (hexcl : ¬(e.isSome = true ∧ c.isSome = true))
    (hd : ∀ w ∈ d.getD [], 1 ≤ w ∧ w ≤ 7) (hby : d ≠ some [])
    (hed : ∀ t, e = some t → t.valid ∧ t.usec = 0) :
    RecurrenceRule.to_ical_string ⟨f, i, e, c, d⟩
        = .ok (String.mk (joinSep ';' (emitParts ⟨f, i, e, c, d⟩))) ∧
      RecurrenceRule.from_ical_string (String.mk (joinSep ';' (emitParts ⟨f, i, e, c, d⟩)))
        = .ok ⟨f, i, e, c, d⟩ := by
  rcases e with _ | ed
  · rcases c with _ | cn
    · rcases d with _ | l
      · -- no optional key
        refine ⟨rfl, ?_⟩
        show fromParts (partsOf (String.mk (joinSep ';'
          ["FREQ=".toList ++ (freqName f).toList, "INTERVAL=".toList ++ intToChars i]))) = _
        rw [partsOf_joinSep _ (by simp)
          (by
            intro g hg ch hch
            rcases List.mem_cons.mp hg with rfl | hg'
            · exact append_clean (by decide) (freqName_clean f hf) ch hch
            · rcases List.mem_cons.mp hg' with rfl | hg''
              · exact append_clean (by decide) (intToChars_no_semi i) ch hch
              · simp at hg'')]
        simp only [List.filterMap_cons, List.filterMap_nil, splitEq_FREQ, splitEq_INTERVAL,
          Option.map_some', mk_toList]
        unfold fromParts freqOf bydayOf
        simp [lookupLast_cons, lookupLast_nil, pyInt_intToChars, freq_roundtrip f hf]
        exact mk_ok f i none none none hf hi (by simp) (by simp)
      · -- BYDAY only
        obtain ⟨w0, ws, rfl⟩ : ∃ w0 ws, l = w0 :: ws := by
          cases l with
          | nil => exact absurd rfl hby
          | cons a b => exact ⟨a, b, rfl⟩
        have hw : ∀ w ∈ w0 :: ws, 1 ≤ w ∧ w ≤ 7 := by simpa using hd
        refine ⟨rfl, ?_⟩
        show fromParts (partsOf (String.mk (joinSep ';'
          ["FREQ=".toList ++ (freqName f).toList, "INTERVAL=".toList ++ intToChars i,
           "BYDAY=".toList ++ joinSep ','
             ((w0 :: ws).map (fun w => (weekdayCode w).toList))]))) = _
        rw [partsOf_joinSep _ (by simp)
          (by
            intro g hg ch hch
            rcases List.mem_cons.mp hg with rfl | hg'
            · exact append_clean (by decide) (freqName_clean f hf) ch hch
            · rcases List.mem_cons.mp hg' with rfl | hg''
              · exact append_clean (by decide) (intToChars_no_semi i) ch hch
              · rcases List.mem_cons.mp hg'' with rfl | hg'''
                · refine append_clean (by decide) ?_ ch hch
                  intro x hx hsemi
                  subst hsemi
                  obtain ⟨gg, hgg, hcg⟩ := joinSep_mem hx
                  rcases hcg with hcg | hcg
                  · obtain ⟨w, hwl, rfl⟩ := List.mem_map.mp hgg
                    exact (weekdayCode_clean w (hw w hwl).1 (hw w hwl).2 _ hcg).1 rfl
                  · simp at hcg
                · simp at hg''')]
        simp only [List.filterMap_cons, List.filterMap_nil, splitEq_FREQ, splitEq_INTERVAL,
          splitEq_BYDAY, Option.map_some', mk_toList]
        have hB : bydayOf [("FREQ", freqName f), ("INTERVAL", String.mk (intToChars i)),
            ("BYDAY", String.mk (joinSep ','
              ((w0 :: ws).map (fun w => (weekdayCode w).toList))))] = some (w0 :: ws) := by
          have hlookB : lookupLast [("FREQ", freqName f),
              ("INTERVAL", String.mk (intToChars i)),
              ("BYDAY", String.mk (joinSep ','
                ((w0 :: ws).map (fun w => (weekdayCode w).toList))))] "BYDAY"
              = some (String.mk (joinSep ','
                ((w0 :: ws).map (fun w => (weekdayCode w).toList)))) := by
            simp [lookupLast_cons, lookupLast_nil]
          unfold bydayOf
          rw [hlookB]
          simp only [toList_mk, byday_value (w0 :: ws) (by simp) hw, List.isEmpty_cons,
            Bool.false_eq_true, if_false]
        unfold fromParts freqOf
        rw [hB]
        simp [lookupLast_cons, lookupLast_nil, pyInt_intToChars, freq_roundtrip f hf]
        exact mk_ok f i none none (some (w0 :: ws)) hf hi (by simp) (by simpa using hw)
    · rcases d with _ | l
      · -- COUNT only
        refine ⟨rfl, ?_⟩
        show fromParts (partsOf (String.mk (joinSep ';'
          ["FREQ=".toList ++ (freqName f).toList, "INTERVAL=".toList ++ intToChars i,
           "COUNT=".toList ++ intToChars cn]))) = _
        rw [partsOf_joinSep _ (by simp)
          (by
            intro g hg ch hch
            rcases List.mem_cons.mp hg with rfl | hg'
            · exact append_clean (by decide) (freqName_clean f hf) ch hch
            · rcases List.mem_cons.mp hg' with rfl | hg''
              · exact append_clean (by decide) (intToChars_no_semi i) ch hch
              · rcases List.mem_cons.mp hg'' with rfl | hg'''
                · exact append_clean (by decide) (intToChars_no_semi cn) ch hch
                · simp at hg''')]
        simp only [List.filterMap_cons, List.filterMap_nil, splitEq_FREQ, splitEq_INTERVAL,
          splitEq_COUNT, Option.map_some', mk_toList]
        unfold fromParts freqOf bydayOf
        simp [lookupLast_cons, lookupLast_nil, pyInt_intToChars, freq_roundtrip f hf]
        exact mk_ok f i none (some cn) none hf hi (by simp) (by simp)
      · -- COUNT and BYDAY
        obtain ⟨w0, ws, rfl⟩ : ∃ w0 ws, l = w0 :: ws := by
          cases l with
          | nil => exact absurd rfl hby
          | cons a b => exact ⟨a, b, rfl⟩
        have hw : ∀ w ∈ w0 :: ws, 1 ≤ w ∧ w ≤ 7 := by simpa using hd
        refine ⟨rfl, ?_⟩
        show fromParts (partsOf (String.mk (joinSep ';'
          ["FREQ=".toList ++ (freqName f).toList, "INTERVAL=".toList ++ intToChars i,
           "COUNT=".toList ++ intToChars cn,
           "BYDAY=".toList ++ joinSep ','
             ((w0 :: ws).map (fun w => (weekdayCode w).toList))]))) = _
        rw [partsOf_joinSep _ (by simp)
          (by
            intro g hg ch hch
            rcases List.mem_cons.mp hg with rfl | hg'
            · exact append_clean (by decide) (freqName_clean f hf) ch hch
            · rcases List.mem_cons.mp hg' with rfl | hg''
              · exact append_clean (by decide) (intToChars_no_semi i) ch hch
              · rcases List.mem_cons.mp hg'' with rfl | hg'''
                · exact append_clean (by decide) (intToChars_no_semi cn) ch hch
                · rcases List.mem_cons.mp hg''' with rfl | hg''''
                  · refine append_clean (by decide) ?_ ch hch
                    intro x hx hsemi
                    subst hsemi
                    obtain ⟨gg, hgg, hcg⟩ := joinSep_mem hx
                    rcases hcg with hcg | hcg
                    · obtain ⟨w, hwl, rfl⟩ := List.mem_map.mp hgg
                      exact (weekdayCode_clean w (hw w hwl).1 (hw w hwl).2 _ hcg).1 rfl
                    · simp at hcg
                  · simp at hg'''')]
        simp only [List.filterMap_cons, List.filterMap_nil, splitEq_FREQ, splitEq_INTERVAL,
          splitEq_COUNT, splitEq_BYDAY, Option.map_some', mk_toList]
        have hB : bydayOf [("FREQ", freqName f), ("INTERVAL", String.mk (intToChars i)),
            ("COUNT", String.mk (intToChars cn)),
            ("BYDAY", String.mk (joinSep ','
              ((w0 :: ws).map (fun w => (weekdayCode w).toList))))] = some (w0 :: ws) := by
          have hlookB : lookupLast [("FREQ", freqName f),
              ("INTERVAL", String.mk (intToChars i)),
            ("COUNT", String.mk (intToChars cn)),
              ("BYDAY", String.mk (joinSep ','
                ((w0 :: ws).map (fun w => (weekdayCode w).toList))))] "BYDAY"
              = some (String.mk (joinSep ','
                ((w0 :: ws).map (fun w => (weekdayCode w).toList)))) := by
            simp [lookupLast_cons, lookupLast_nil]
          unfold bydayOf
          rw [hlookB]
          simp only [toList_mk, byday_value (w0 :: ws) (by simp) hw, List.isEmpty_cons,
            Bool.false_eq_true, if_false]
        unfold fromParts freqOf
        rw [hB]
        simp [lookupLast_cons, lookupLast_nil, pyInt_intToChars, freq_roundtrip f hf]
        exact mk_ok f i none (some cn) (some (w0 :: ws)) hf hi (by simp) (by simpa using hw)
  · rcases c with _ | cn
    · obtain ⟨hv, hu⟩ := hed ed rfl
      rcases d with _ | l
      · -- UNTIL only
        refine ⟨rfl, ?_⟩
        show fromParts (partsOf (String.mk (joinSep ';'
          ["FREQ=".toList ++ (freqName f).toList, "INTERVAL=".toList ++ intToChars i,
           "UNTIL=".toList ++ fmtUNTIL ed]))) = _
        rw [partsOf_joinSep _ (by simp)
          (by
            intro g hg ch hch
            rcases List.mem_cons.mp hg with rfl | hg'
            · exact append_clean (by decide) (freqName_clean f hf) ch hch
            · rcases List.mem_cons.mp hg' with rfl | hg''
              · exact append_clean (by decide) (intToChars_no_semi i) ch hch
              · rcases List.mem_cons.mp hg'' with rfl | hg'''
                · exact append_clean (by decide) (fmtUNTIL_no_semi ed hv) ch hch
                · simp at hg''')]
        simp only [List.filterMap_cons, List.filterMap_nil, splitEq_FREQ, splitEq_INTERVAL,
          splitEq_UNTIL, Option.map_some', mk_toList]
        unfold fromParts freqOf bydayOf
        simp [lookupLast_cons, lookupLast_nil, pyInt_intToChars, freq_roundtrip f hf,
          untilParse_fmtUNTIL ed hv hu]
        exact mk_ok f i (some ed) none none hf hi (by simp) (by simp)
      · -- UNTIL and BYDAY
        obtain ⟨w0, ws, rfl⟩ : ∃ w0 ws, l = w0 :: ws := by
          cases l with
          | nil => exact absurd rfl hby
          | cons a b => exact ⟨a, b, rfl⟩
        have hw : ∀ w ∈ w0 :: ws, 1 ≤ w ∧ w ≤ 7 := by simpa using hd
        refine ⟨rfl, ?_⟩
        show fromParts (partsOf (String.mk (joinSep ';'
          ["FREQ=".toList ++ (freqName f).toList, "INTERVAL=".toList ++ intToChars i,
           "UNTIL=".toList ++ fmtUNTIL ed,
           "BYDAY=".toList ++ joinSep ','
             ((w0 :: ws).map (fun w => (weekdayCode w).toList))]))) = _
        rw [partsOf_joinSep _ (by simp)
          (by
            intro g hg ch hch
            rcases List.mem_cons.mp hg with rfl | hg'
            · exact append_clean (by decide) (freqName_clean f hf) ch hch
            · rcases List.mem_cons.mp hg' with rfl | hg''
              · exact append_clean (by decide) (intToChars_no_semi i) ch hch
              · rcases List.mem_cons.mp hg'' with rfl | hg'''
                · exact append_clean (by decide) (fmtUNTIL_no_semi ed hv) ch hch
                · rcases List.mem_cons.mp hg''' with rfl | hg''''
                  · refine append_clean (by decide) ?_ ch hch
                    intro x hx hsemi
                    subst hsemi
                    obtain ⟨gg, hgg, hcg⟩ := joinSep_mem hx
                    rcases hcg with hcg | hcg
                    · obtain ⟨w, hwl, rfl⟩ := List.mem_map.mp hgg
                      exact (weekdayCode_clean w (hw w hwl).1 (hw w hwl).2 _ hcg).1 rfl
                    · simp at hcg
                  · simp at hg'''')]
        simp only [List.filterMap_cons, List.filterMap_nil, splitEq_FREQ, splitEq_INTERVAL,
          splitEq_UNTIL, splitEq_BYDAY, Option.map_some', mk_toList]
        have hB : bydayOf [("FREQ", freqName f), ("INTERVAL", String.mk (intToChars i)),
            ("UNTIL", String.mk (fmtUNTIL ed)),
            ("BYDAY", String.mk (joinSep ','
              ((w0 :: ws).map (fun w => (weekdayCode w).toList))))] = some (w0 :: ws) := by
          have hlookB : lookupLast [("FREQ", freqName f),
              ("INTERVAL", String.mk (intToChars i)),
            ("UNTIL", String.mk (fmtUNTIL ed)),
              ("BYDAY", String.mk (joinSep ','
                ((w0 :: ws).map (fun w => (weekdayCode w).toList))))] "BYDAY"
              = some (String.mk (joinSep ','
                ((w0 :: ws).map (fun w => (weekdayCode w).toList)))) := by
            simp [lookupLast_cons, lookupLast_nil]
          unfold bydayOf
          rw [hlookB]
          simp only [toList_mk, byday_value (w0 :: ws) (by simp) hw, List.isEmpty_cons,
            Bool.false_eq_true, if_false]
        unfold fromParts freqOf
        rw [hB]
        simp [lookupLast_cons, lookupLast_nil, pyInt_intToChars, freq_roundtrip f hf,
          untilParse_fmtUNTIL ed hv hu]
        exact mk_ok f i (some ed) none (some (w0 :: ws)) hf hi (by simp) (by simpa using hw)
    · exact absurd ⟨rfl, rfl⟩ hexcl

/-! ## Helper lemmas: parse-result analysis -/

lemma frequency_map_le {s : String} {v : Nat} (h : frequency_map s = some v) : v ≤ 3 := by
  unfold frequency_map at h
  split at h
  · cases h; omega
  · split at h
    · cases h; omega
    · split at h
      · cases h; omega
      · split at h
        · cases h; omega
        · cases h

lemma weekday_map_range {s : String} {v : Nat} (h : weekday_map s = some v) :
    1 ≤ v ∧ v ≤ 7 := by
  unfold weekday_map at h
  split at h
  · cases h; omega
  · split at h
    · cases h; omega
    · split at h
      · cases h; omega
      · split at h
        · cases h; omega
        · split at h
          · cases h; omega
          · split at h
            · cases h; omega
            · split at h
              · cases h; omega
              · cases h

lemma freqOf_le (parts : List (String × String)) : freqOf parts ≤ 3 := by
  unfold freqOf
  cases h : frequency_map ((lookupLast parts "FREQ").getD "DAILY") with
  | none => simp
  | some v => simpa using frequency_map_le h

lemma bydayOf_wf (parts : List (String × String)) :
    ∀ w ∈ (bydayOf parts).getD [], 1 ≤ w ∧ w ≤ 7 := by
  unfold bydayOf
  split
  · simp
  · rename_i b heq
    show ∀ w ∈ (if (List.filterMap (fun code => weekday_map (String.mk code))
        (splitChar ',' b.toList)).isEmpty = true then none
      else some (List.filterMap (fun code => weekday_map (String.mk code))
        (splitChar ',' b.toList))).getD [], 1 ≤ w ∧ w ≤ 7
    split
    · simp
    · intro w hw
      simp only [Option.getD_some] at hw
      obtain ⟨code, _, hcode⟩ := List.mem_filterMap.mp hw
      exact weekday_map_range hcode

lemma mk_ok_excl {f : Nat} {i : Int} {e : Option DT} {c : Option Int}
    {d : Option (List Nat)} {r : RecurrenceRule}
    (h : mkRecurrenceRule f i e c d = .ok r) :
    (e.isSome && c.isSome) = false := by
  unfold mkRecurrenceRule at h
  split at h
  · exact absurd h (by simp)
  · split at h
    · exact absurd h (by simp)
    · split at h
      · exact absurd h (by simp)
      · split at h
        · exact absurd h (by simp)
        · rename_i hcond
          simp only [Bool.not_eq_true] at hcond
          exact hcond

lemma takeWhile_digits {ds : List Char} (h : ∀ c ∈ ds, c.isDigit = true)
    {c : Char} (hc : c.isDigit = false) (t : List Char) :
    (ds ++ c :: t).takeWhile (fun x => x.isDigit) = ds ∧
      (ds ++ c :: t).dropWhile (fun x => x.isDigit) = c :: t := by
  induction ds with
  | nil => simp [List.takeWhile, List.dropWhile, hc]
  | cons a as ih =>
    have ha : a.isDigit = true := h a (by simp)
    have := ih (fun x hx => h x (by simp [hx]))
    simp [List.takeWhile, List.dropWhile, ha, this.1, this.2]

/-! ## Concrete fixtures used by witnesses and counterexamples -/

/-- A backend returning no events, for witness instantiations. -/
def emptyBackend : DT → DT → List Event := fun _ _ => []

/-- An event fixture. -/
def evProject : Event :=
  { title := "Project Meeting", start_time := some (mkDT 2025 11 18 9 0 0 0),
    end_time := none, identifier := "id-1", location := none, notes := none,
    alarms_minutes_offsets := none, url := none, all_day := false,
    organizer := none, attendees := none, last_modified := none,
    recurrence_rule := none }

/-- Another event fixture. -/
def evClient : Event :=
  { title := "Client Meeting", start_time := some (mkDT 2025 11 18 14 0 0 0),
    end_time := none, identifier := "id-2", location := none, notes := none,
    alarms_minutes_offsets := none, url := none, all_day := false,
    organizer := none, attendees := none, last_modified := none,
    recurrence_rule := none }

/-- An event fixture with title, location and notes set. -/
def evFull : Event :=
  { title := "会议", start_time := some (mkDT 2025 11 12 9 0 0 0),
    end_time := none, identifier := "id-3", location := some "293",
    notes := some "agenda", alarms_minutes_offsets := none, url := none,
    all_day := false, organizer := none, attendees := none,
    last_modified := none, recurrence_rule := none }

/-- A vevent whose RRULE has a malformed INTERVAL. -/
def vevBadRRule : VEvent :=
  { summary := some "Standup", dtstart := none, dtstartIsDate := false,
    dtend := none, location := none, description := none, url := none,
    triggers := [], rrule := some "FREQ=DAILY;INTERVAL=x", organizer := none,
    attendees := [], last_modified := none }

/-- A vevent carrying a 90-minute reminder trigger. -/
def vevHalfHour : VEvent :=
  { summary := some "Sync", dtstart := none, dtstartIsDate := false,
    dtend := none, location := none, description := none, url := none,
    triggers := ["-PT1H30M"], rrule := none, organizer := none,
    attendees := [], last_modified := none }

/-- A vevent with every optional field absent. -/
def vevEmpty : VEvent :=
  { summary := none, dtstart := none, dtstartIsDate := false,
    dtend := none, location := none, description := none, url := none,
    triggers := [], rrule := none, organizer := none,
    attendees := [], last_modified := none }

/-! ## The claims -/

/-- Claim C1, as stated, is false on the code: the widening is keyed on
`start.date() == end.date()` with both times at midnight, which forces
`start == end`; the very window the claim names, `2025-11-18T00:00` to
`2025-11-19T00:00`, fails that test and is passed through unmodified with no
local filter, where the claim demands the widened range
`2025-11-03 .. 2025-12-18`. -/
theorem claim_C1_counterexample :
    listEventsPlan (mkDT 2025 11 18 0 0 0 0) (mkDT 2025 11 19 0 0 0 0)
        = ((mkDT 2025 11 18 0 0 0 0, mkDT 2025 11 19 0 0 0 0), none) ∧
      (mkDT 2025 11 18 0 0 0 0, mkDT 2025 11 19 0 0 0 0)
        ≠ (mkDT 2025 11 3 0 0 0 0, mkDT 2025 12 18 0 0 0 0) ∧
      (none : Option (DT × DT))
        ≠ some (mkDT 2025 11 18 0 0 0 0, mkDT 2025 11 19 0 0 0 0) := by
  refine ⟨by decide, by decide, by decide⟩

/-- Claim C1 (amended): the `list_events` branch widens the executed query to
`[start - 15d, start + 30d]` and filters the results to `[start, start + 1d)`
exactly when `start` and `end` lie on the same calendar date with both times
at midnight (equivalently `start = end` at midnight, the shape the language
model produces for a single-day query); every other window — including one
whose end is exactly 24 hours after a midnight start — is passed through to
the backend unmodified with no local filter. -/
theorem claim_C1 (backend : DT → DT → List Event) (start finish : DT) :
    ((start.sameDate finish && start.isMidnight && finish.isMidnight) = true →
      listEventsPlan start finish
          = ((start.addDays (-15), start.addDays 30), some (start, start.addDays 1)) ∧
        executeListEvents backend start finish
          = filterByStart start (start.addDays 1)
              (backend (start.addDays (-15)) (start.addDays 30))) ∧
    ((start.sameDate finish && start.isMidnight && finish.isMidnight) = false →
      listEventsPlan start finish = ((start, finish), none) ∧
      executeListEvents backend start finish = backend start finish) := by
  constructor
  · intro h
    constructor
    · unfold listEventsPlan
      rw [if_pos h]
    · unfold executeListEvents listEventsPlan
      rw [if_pos h]
  · intro h
    constructor
    · unfold listEventsPlan
      rw [if_neg (by simp [h])]
    · unfold executeListEvents listEventsPlan
      rw [if_neg (by simp [h])]

theorem claim_C1_witness :
    (listEventsPlan (mkDT 2025 11 18 0 0 0 0) (mkDT 2025 11 18 0 0 0 0)
        = (((mkDT 2025 11 18 0 0 0 0).addDays (-15), (mkDT 2025 11 18 0 0 0 0).addDays 30),
           some (mkDT 2025 11 18 0 0 0 0, (mkDT 2025 11 18 0 0 0 0).addDays 1)) ∧
      executeListEvents emptyBackend (mkDT 2025 11 18 0 0 0 0) (mkDT 2025 11 18 0 0 0 0)
        = filterByStart (mkDT 2025 11 18 0 0 0 0) ((mkDT 2025 11 18 0 0 0 0).addDays 1)
            (emptyBackend ((mkDT 2025 11 18 0 0 0 0).addDays (-15))
              ((mkDT 2025 11 18 0 0 0 0).addDays 30))) :=
  (claim_C1 emptyBackend (mkDT 2025 11 18 0 0 0 0) (mkDT 2025 11 18 0 0 0 0)).1 (by decide)

/-- Claim C4: a `RecurrenceRule` carrying both `end_date` and
`occurrence_count` never constructs — the validating constructor rejects
every such argument tuple — and consequently every rule produced by
`from_ical_string` (whose last step is that constructor) has at most one of
the two set. -/
theorem claim_C4 :
    (∀ (f : Nat) (i : Int) (ed : DT) (cnt : Int) (d : Option (List Nat)),
      (mkRecurrenceRule f i (some ed) (some cnt) d).isOk = false) ∧
    (∀ (s : String) (r : RecurrenceRule), RecurrenceRule.from_ical_string s = .ok r →
      ¬(r.end_date.isSome = true ∧ r.occurrence_count.isSome = true)) := by
  constructor
  · intro f i ed cnt d
    unfold mkRecurrenceRule
    split
    · rfl
    · split
      · rfl
      · split
        · rfl
        · rw [if_pos (by simp)]
          rfl
  · intro s r hok
    simp only [RecurrenceRule.from_ical_string, fromParts] at hok
    split at hok
    · exact absurd hok (by simp)
    · split at hok
      · have h := mk_ok_excl hok
        have heq := mk_ok_inv hok
        subst heq
        simp only [Bool.and_eq_true]
        rintro ⟨h1, h2⟩
        rw [h1, h2] at h
        simp at h
      · split at hok
        · split at hok
          · exact absurd hok (by simp)
          · have h := mk_ok_excl hok
            have heq := mk_ok_inv hok
            subst heq
            simp
        · have heq := mk_ok_inv hok
          subst heq
          simp

theorem claim_C4_witness :
    (mkRecurrenceRule 0 1 (some (mkDT 2025 1 1 0 0 0 0)) (some 5) none).isOk = false ∧
      ¬(((⟨0, 1, none, some 3, none⟩ : RecurrenceRule).end_date.isSome = true ∧
        ((⟨0, 1, none, some 3, none⟩ : RecurrenceRule)).occurrence_count.isSome = true)) :=
  ⟨claim_C4.1 0 1 (mkDT 2025 1 1 0 0 0 0) 5 none,
   claim_C4.2 "FREQ=DAILY;COUNT=3" ⟨0, 1, none, some 3, none⟩ (by decide)⟩

/-- Claim C7, as stated, is false on the code: the "truncation to the
calendar day" is `replace(hour=0, minute=0, second=0)`, which leaves the
microsecond component intact, so a date-time parameter carrying fractional
seconds yields the window `[midnight + fraction, midnight + fraction + 1d)`
rather than the calendar day `[midnight, midnight + 1d)`. -/
theorem claim_C7_counterexample :
    deleteTargetRange (some "2025-11-12T14:00:00.500000") none
        = .ok (some (mkDT 2025 11 12 0 0 0 500000, mkDT 2025 11 13 0 0 0 500000)) ∧
      mkDT 2025 11 12 0 0 0 500000 ≠ mkDT 2025 11 12 0 0 0 0 ∧
      (mkDT 2025 11 12 0 0 0 500000).isMidnight = false := by
  refine ⟨by decide, by decide, by decide⟩

/-- Claim C7 (amended): for update/delete resolution without an explicit
identifier, a given date or date-time parameter is parsed and its hour,
minute and second are zeroed — microseconds are preserved, so the window is
the calendar day `[midnight, midnight + 1d)` exactly when the parameter has
no fractional-second part (as all date-only and whole-second date-time
parameters do) — and with no such parameter the window defaults to
`[now - 30d, now + 90d]`. -/
theorem claim_C7 (now : DT) (ts ds sd : Option String) :
    (∀ s t, ts = some s → fromisoformat s = some t →
      deleteTargetRange ts ds = .ok (some (t.replaceHMS0, t.replaceHMS0.addDays 1))) ∧
    (ts = none → ∀ s t, ds = some s → fromisoformat s = some t →
      deleteTargetRange ts ds = .ok (some (t.replaceHMS0, t.replaceHMS0.addDays 1))) ∧
    (ts = none → ds = none →
      deleteTargetRange ts ds = .ok none ∧
      deleteQueryRange now none = (now.addDays (-30), now.addDays 90)) ∧
    (∀ s t, sd = some s → fromisoformat s = some t →
      updateSearchWindow now sd = .ok (t.replaceHMS0, t.replaceHMS0.addDays 1)) ∧
    (sd = none → updateSearchWindow now sd = .ok (now.addDays (-30), now.addDays 90)) ∧
    (∀ t : DT, t.replaceHMS0 = ⟨t.year, t.month, t.day, 0, 0, 0, t.usec⟩ ∧
      (t.usec = 0 → t.replaceHMS0.isMidnight = true)) := by
  refine ⟨?_, ?_, ?_, ?_, ?_, ?_⟩
  · intro s t hs ht
    subst hs
    unfold deleteTargetRange
    dsimp only
    rw [ht]
  · intro hts s t hs ht
    subst hts
    subst hs
    unfold deleteTargetRange
    dsimp only
    rw [ht]
  · intro hts hds
    subst hts
    subst hds
    exact ⟨rfl, rfl⟩
  · intro s t hs ht
    subst hs
    unfold updateSearchWindow
    dsimp only
    rw [ht]
  · intro hsd
    subst hsd
    rfl
  · intro t
    refine ⟨rfl, fun h => ?_⟩
    simp [DT.replaceHMS0, DT.isMidnight, h]

theorem claim_C7_witness :
    deleteTargetRange (some "2025-11-12T14:30:00") none
      = .ok (some ((mkDT 2025 11 12 14 30 0 0).replaceHMS0,
          (mkDT 2025 11 12 14 30 0 0).replaceHMS0.addDays 1)) :=
  (claim_C7 (mkDT 2025 11 11 19 30 0 0) (some "2025-11-12T14:30:00") none none).1
    "2025-11-12T14:30:00" (mkDT 2025 11 12 14 30 0 0) rfl (by decide)

/-- Claim C10: `from_ical_string` is lenient for `UNTIL` but not for the
integer keys — a present `INTERVAL` (or, when `UNTIL` is absent, a present
`COUNT`) whose value is not a valid integer literal makes the whole parse
raise (`Except.error`), with no default and no skipping, whereas a present
but malformed `UNTIL` is swallowed and (given a well-formed positive
interval) the parse still succeeds with an unbounded rule. -/
theorem claim_C10 (s : String) :
    (∀ v, lookupLast (partsOf s) "INTERVAL" = some v → pyInt v = none →
      ∃ e, RecurrenceRule.from_ical_string s = .error e) ∧
    (lookupLast (partsOf s) "UNTIL" = none →
      ∀ cv, lookupLast (partsOf s) "COUNT" = some cv → pyInt cv = none →
      ∃ e, RecurrenceRule.from_ical_string s = .error e) ∧
    (∀ u i, lookupLast (partsOf s) "UNTIL" = some u → untilParse u = none →
      pyInt ((lookupLast (partsOf s) "INTERVAL").getD "1") = some i → 1 ≤ i →
      RecurrenceRule.from_ical_string s
        = .ok ⟨freqOf (partsOf s), i, none, none, bydayOf (partsOf s)⟩) := by
  refine ⟨?_, ?_, ?_⟩
  · intro v hv hnone
    simp only [RecurrenceRule.from_ical_string, fromParts, hv, Option.getD_some, hnone]
    exact ⟨_, rfl⟩
  · intro hu cv hcv hnone
    simp only [RecurrenceRule.from_ical_string, fromParts, hu, hcv, hnone]
    cases hI : pyInt ((lookupLast (partsOf s) "INTERVAL").getD "1") with
    | none => exact ⟨_, rfl⟩
    | some i => exact ⟨_, rfl⟩
  · intro u i hu hup hI hi
    simp only [RecurrenceRule.from_ical_string, fromParts, hu, hI, hup]
    exact mk_ok _ i none none _ (freqOf_le _) hi (by simp) (bydayOf_wf _)

theorem claim_C10_witness :
    (∃ e, RecurrenceRule.from_ical_string "FREQ=DAILY;INTERVAL=x" = .error e) ∧
      RecurrenceRule.from_ical_string "FREQ=WEEKLY;UNTIL=banana;INTERVAL=2"
        = .ok ⟨freqOf (partsOf "FREQ=WEEKLY;UNTIL=banana;INTERVAL=2"), 2, none, none,
            bydayOf (partsOf "FREQ=WEEKLY;UNTIL=banana;INTERVAL=2")⟩ :=
  ⟨(claim_C10 "FREQ=DAILY;INTERVAL=x").1 "x" (by decide) (by decide),
   (claim_C10 "FREQ=WEEKLY;UNTIL=banana;INTERVAL=2").2.2 "banana" 2 (by decide) (by decide)
     (by decide) (by decide)⟩

/-- Claim C3: in `from_ical_string` the `UNTIL` key wins over `COUNT`: when
`UNTIL` is present and its value fails both timestamp formats, the parsed
rule is unbounded (`end_date = None`), and whenever `UNTIL` is present at
all, `COUNT` is never consulted, so `occurrence_count` stays `None`; an
absent `FREQ` defaults to `DAILY` (value 0) and an absent `INTERVAL` to 1,
neither being an error. -/
theorem claim_C3 (s : String) (r : RecurrenceRule)
    (hok : RecurrenceRule.from_ical_string s = .ok r) :
    (∀ u, lookupLast (partsOf s) "UNTIL" = some u →
      (untilParse u = none → r.end_date = none) ∧ r.occurrence_count = none) ∧
    (lookupLast (partsOf s) "FREQ" = none → r.frequency = 0) ∧
    (lookupLast (partsOf s) "INTERVAL" = none → r.interval = 1) := by
  simp only [RecurrenceRule.from_ical_string, fromParts] at hok
  split at hok
  · exact absurd hok (by simp)
  · rename_i i hInt
    split at hok
    · rename_i u' hu'
      have heq := mk_ok_inv hok
      subst heq
      refine ⟨?_, ?_, ?_⟩
      · intro u hu
        rw [hu'] at hu
        cases hu
        exact ⟨fun hnone => hnone, rfl⟩
      · intro hF
        show freqOf (partsOf s) = 0
        unfold freqOf
        rw [hF]
        rfl
      · intro hI
        rw [hI] at hInt
        have : i = 1 := by
          rw [show pyInt ((none : Option String).getD "1") = some 1 from by decide] at hInt
          cases hInt
          rfl
        simpa using this
    · rename_i hu'
      have hfields : r.frequency = freqOf (partsOf s) ∧ r.interval = i := by
        split at hok
        · split at hok
          · exact absurd hok (by simp)
          · have heq := mk_ok_inv hok
            subst heq
            exact ⟨rfl, rfl⟩
        · have heq := mk_ok_inv hok
          subst heq
          exact ⟨rfl, rfl⟩
      obtain ⟨hf, hi⟩ := hfields
      refine ⟨?_, ?_, ?_⟩
      · intro u hu
        rw [hu'] at hu
        cases hu
      · intro hF
        rw [hf]
        unfold freqOf
        rw [hF]
        rfl
      · intro hI
        rw [hI] at hInt
        rw [show pyInt ((none : Option String).getD "1") = some 1 from by decide] at hInt
        cases hInt
        simpa using hi

theorem claim_C3_witness :
    ((untilParse "banana" = none →
        (⟨1, 1, none, none, none⟩ : RecurrenceRule).end_date = none) ∧
      (⟨1, 1, none, none, none⟩ : RecurrenceRule).occurrence_count = none) ∧
    (lookupLast (partsOf "FREQ=WEEKLY;UNTIL=banana;COUNT=5") "FREQ" = none →
      (⟨1, 1, none, none, none⟩ : RecurrenceRule).frequency = 0) ∧
    (lookupLast (partsOf "FREQ=WEEKLY;UNTIL=banana;COUNT=5") "INTERVAL" = none →
      (⟨1, 1, none, none, none⟩ : RecurrenceRule).interval = 1) :=
  ⟨(claim_C3 "FREQ=WEEKLY;UNTIL=banana;COUNT=5" ⟨1, 1, none, none, none⟩ (by decide)).1
      "banana" (by decide),
   (claim_C3 "FREQ=WEEKLY;UNTIL=banana;COUNT=5" ⟨1, 1, none, none, none⟩ (by decide)).2.1,
   (claim_C3 "FREQ=WEEKLY;UNTIL=banana;COUNT=5" ⟨1, 1, none, none, none⟩ (by decide)).2.2⟩

/-- Claim C5: fuzzy update/delete resolution — a candidate matches exactly
when the lowered search title is a substring of its lowered title or vice
versa; zero matches produce the not-found message naming the title and
carrying the time-constraint prefix exactly when a constraint applied; one
match resolves to that candidate's identifier; two or more produce the
disambiguation response listing all matches in fetch order. -/
theorem claim_C5 (search : String) (tc : Bool) (events : List Event) :
    (events.filter (fun e => titleMatches search e.title) = [] →
      resolveByTitle search tc events
        = .notFound ((if tc then "在指定时间范围内" else "")
            ++ "没有找到标题包含 " ++ sq ++ search ++ sq ++ " 的事件")) ∧
    (∀ e, events.filter (fun e => titleMatches search e.title) = [e] →
      resolveByTitle search tc events = .resolved e.identifier e.title) ∧
    (∀ e e' rest, events.filter (fun e => titleMatches search e.title) = e :: e' :: rest →
      resolveByTitle search tc events
        = .ambiguous ("找到 " ++ String.mk (natToChars (e :: e' :: rest).length)
            ++ " 个匹配的事件，请明确指定：") (e :: e' :: rest)) ∧
    (∀ e ∈ events, titleMatches search e.title
      = (isSubstringOf (strLower search) (strLower e.title)
          || isSubstringOf (strLower e.title) (strLower search))) := by
  refine ⟨?_, ?_, ?_, ?_⟩
  · intro h
    unfold resolveByTitle
    rw [h]
  · intro e h
    unfold resolveByTitle
    rw [h]
  · intro e e' rest h
    unfold resolveByTitle
    rw [h]
  · intro e _
    rfl

theorem claim_C5_witness :
    (resolveByTitle "meeting" false [evProject, evClient]
        = .ambiguous ("找到 " ++ String.mk (natToChars ([evProject, evClient].length))
            ++ " 个匹配的事件，请明确指定：") [evProject, evClient]) ∧
    (resolveByTitle "team" false [evProject]
        = .notFound ("" ++ "没有找到标题包含 " ++ sq ++ "team" ++ sq ++ " 的事件")) :=
  ⟨(claim_C5 "meeting" false [evProject, evClient]).2.2.1 evProject evClient [] (by decide),
   (claim_C5 "team" false [evProject]).1 (by decide)⟩

/-- Claim C6: the update branch applies only the fields present in the
payload — the built `UpdateEventRequest` has `None` for every absent field,
the title is suppressed when it equals the search title that located the
event, the `description` value never reaches the request (it has no such
field and pydantic drops the unknown keyword), and applying such a request
leaves every unset field of the stored event unchanged; in particular a
payload containing only `start_time` leaves title, location and notes
intact. -/
theorem claim_C6 (st : Option String) (p : UpdateParams) (r : UpdateEventRequest)
    (hok : buildUpdateRequest st p = .ok r) :
    (p.title = none → r.title = none) ∧
    (∀ t, p.title = some t → st = some t → r.title = none) ∧
    (p.start_time = none → r.start_time = none) ∧
    (p.end_time = none → r.end_time = none) ∧
    (p.location = none → r.location = none) ∧
    r.notes = none ∧ r.calendar_name = none ∧ r.url = none ∧ r.all_day = none ∧
    r.alarms_minutes_offsets = none ∧ r.recurrence_rule = none ∧
    (p.title = none → p.location = none →
      ∀ ev : Event, (applyUpdate ev r).title = ev.title ∧
        (applyUpdate ev r).location = ev.location ∧
        (applyUpdate ev r).notes = ev.notes) := by
  simp only [buildUpdateRequest] at hok
  split at hok
  · exact absurd hok (by simp)
  · exact absurd hok (by simp)
  · rename_i ost oet pst pet hst het
    cases hok
    refine ⟨?_, ?_, ?_, ?_, ?_, rfl, rfl, rfl, rfl, rfl, rfl, ?_⟩
    · intro h
      simp [h]
    · intro t h1 h2
      simp [h1, h2]
    · intro h
      rw [h] at hst
      cases hst
      rfl
    · intro h
      rw [h] at het
      cases het
      rfl
    · intro h
      simp [h]
    · intro h1 h2 ev
      unfold applyUpdate
      simp [h1, h2]

theorem claim_C6_witness :
    ((applyUpdate evFull
        { title := none, start_time := some (mkDT 2025 11 13 9 0 0 0), end_time := none,
          calendar_name := none, location := none, notes := none,
          alarms_minutes_offsets := none, url := none, all_day := none,
          recurrence_rule := none }).title = evFull.title ∧
      (applyUpdate evFull
        { title := none, start_time := some (mkDT 2025 11 13 9 0 0 0), end_time := none,
          calendar_name := none, location := none, notes := none,
          alarms_minutes_offsets := none, url := none, all_day := none,
          recurrence_rule := none }).location = evFull.location ∧
      (applyUpdate evFull
        { title := none, start_time := some (mkDT 2025 11 13 9 0 0 0), end_time := none,
          calendar_name := none, location := none, notes := none,
          alarms_minutes_offsets := none, url := none, all_day := none,
          recurrence_rule := none }).notes = evFull.notes) :=
  (claim_C6 (some "会议")
    { title := none, start_time := some "2025-11-13T09:00:00", end_time := none,
      location := none, description := none }
    { title := none, start_time := some (mkDT 2025 11 13 9 0 0 0), end_time := none,
      calendar_name := none, location := none, notes := none,
      alarms_minutes_offsets := none, url := none, all_day := none,
      recurrence_rule := none }
    (by decide)).2.2.2.2.2.2.2.2.2.2.2 rfl rfl evFull

/-- Claim C8, as stated, is false on the code in two ways: decoding also
fails when the payload HAS an event body whose RRULE carries a malformed
INTERVAL (the `from_ical_string` call sits outside the final try/except, so
its `ValueError` propagates), and the error raised for a missing event body
is the fixed string "Event data has no vevent component", which does not
contain the best-effort identifier (that is only logged). -/
theorem claim_C8_counterexample :
    (Event.from_caldav_event "event-7" (some vevBadRRule)).isOk = false ∧
      (some vevBadRRule ≠ (none : Option VEvent)) ∧
      Event.from_caldav_event "event-7" none
        = .error "Event data has no vevent component" ∧
      isSubstringOf "event-7" "Event data has no vevent component" = false := by
  refine ⟨by decide, by decide, by decide, by decide⟩

/-- Claim C8 (amended): decoding fails in exactly two situations — a payload
with no event body (raising the fixed message "Event data has no vevent
component", which names no identifier; the identifier is only logged), or a
present RRULE string whose parse raises (malformed or non-positive INTERVAL,
or malformed COUNT with UNTIL absent), since that call precedes the guarded
try block; with a parsable or absent RRULE every missing optional field
decodes to its default without failure, title defaulting to "No Title". -/
theorem claim_C8 (identifier : String) (v : VEvent) :
    Event.from_caldav_event identifier none
        = .error "Event data has no vevent component" ∧
    (v.rrule = none →
      Event.from_caldav_event identifier (some v)
        = .ok { title := v.summary.getD "No Title",
                start_time := v.dtstart, end_time := v.dtend,
                identifier := identifier, location := v.location,
                notes := v.description,
                alarms_minutes_offsets :=
                  (if (v.triggers.filterMap parseTrigger).isEmpty then none
                   else some (v.triggers.filterMap parseTrigger)),
                url := v.url, all_day := v.dtstart.isSome && v.dtstartIsDate,
                organizer := v.organizer,
                attendees := (if v.attendees.isEmpty then none else some v.attendees),
                last_modified := v.last_modified, recurrence_rule := none }) ∧
    (∀ rs, v.rrule = some rs →
      (Event.from_caldav_event identifier (some v)).isOk
        = (RecurrenceRule.from_ical_string rs).isOk) := by
  refine ⟨rfl, ?_, ?_⟩
  · intro h
    unfold Event.from_caldav_event
    dsimp only
    rw [h]
  · intro rs h
    unfold Event.from_caldav_event
    dsimp only
    rw [h]
    dsimp only
    cases hr : RecurrenceRule.from_ical_string rs <;> rfl

theorem claim_C8_witness :
    Event.from_caldav_event "event-8" (some vevEmpty)
      = .ok { title := (none : Option String).getD "No Title",
              start_time := none, end_time := none, identifier := "event-8",
              location := none, notes := none,
              alarms_minutes_offsets :=
                (if (([] : List String).filterMap parseTrigger).isEmpty then none
                 else some (([] : List String).filterMap parseTrigger)),
              url := none, all_day := (none : Option DT).isSome && false,
              organizer := none,
              attendees := (if ([] : List String).isEmpty then none
                else some ([] : List String)),
              last_modified := none, recurrence_rule := none } :=
  (claim_C8 "event-8" vevEmpty).2.1 rfl

/-- Claim C9, as stated, is false on the code: the trigger is matched with
`re.match`, which anchors only at the START of the string, so a trigger that
does not have the form `-PT<N><H|M>` in its entirety can still contribute —
the realistic trigger "-PT1H30M" is not a full match of the pattern yet
contributes 60 minutes (the trailing "30M" is silently ignored) instead of
being omitted as the claim requires. -/
theorem claim_C9_counterexample :
    fullTriggerPattern "-PT1H30M" = false ∧
      parseTrigger "-PT1H30M" = some 60 ∧
      Event.from_caldav_event "event-9" (some vevHalfHour)
        = .ok { title := "Sync", start_time := none, end_time := none,
                identifier := "event-9", location := none, notes := none,
                alarms_minutes_offsets := some [60], url := none,
                all_day := false, organizer := none, attendees := none,
                last_modified := none, recurrence_rule := none } := by
  refine ⟨by decide, by decide, by decide⟩

/-- Claim C9 (amended): a trigger string BEGINNING with `-PT`, one or more
digits and `H` or `M` contributes `N*60` respectively `N` minutes, whatever
follows; a string not of that shape at its start is silently omitted;
"-PT15M" yields 15, "-PT2H" yields 120 and "-P1D" is omitted; and the
decoded event's alarm list is exactly the triggers' parses in order
(normalized to `None` when empty). -/
theorem claim_C9 (identifier : String) (v : VEvent) (ds tail : List Char) :
    (ds ≠ [] → (∀ c ∈ ds, c.isDigit = true) →
      parseTrigger (String.mk ('-' :: 'P' :: 'T' :: (ds ++ 'H' :: tail)))
          = some ((digitsVal ds : Int) * 60) ∧
      parseTrigger (String.mk ('-' :: 'P' :: 'T' :: (ds ++ 'M' :: tail)))
          = some (digitsVal ds)) ∧
    (parseTrigger "-PT15M" = some 15 ∧ parseTrigger "-PT2H" = some 120 ∧
      parseTrigger "-P1D" = none) ∧
    (v.rrule = none → ∀ ev, Event.from_caldav_event identifier (some v) = .ok ev →
      ev.alarms_minutes_offsets
        = (if (v.triggers.filterMap parseTrigger).isEmpty then none
           else some (v.triggers.filterMap parseTrigger))) := by
  refine ⟨?_, ⟨by decide, by decide, by decide⟩, ?_⟩
  · intro hne hds
    have hH := takeWhile_digits hds (c := 'H') (by decide) tail
    have hM := takeWhile_digits hds (c := 'M') (by decide) tail
    constructor
    · show (match ('-' :: 'P' :: 'T' :: (ds ++ 'H' :: tail) : List Char) with
        | '-' :: 'P' :: 'T' :: rest =>
          let dsx := rest.takeWhile (fun x => x.isDigit)
          let after := rest.dropWhile (fun x => x.isDigit)
          if dsx.isEmpty then none
          else
            match after with
            | 'H' :: _ => some ((digitsVal dsx : Int) * 60)
            | 'M' :: _ => some (digitsVal dsx)
            | _ => none
        | _ => none) = some ((digitsVal ds : Int) * 60)
      simp only [hH.1, hH.2]
      rw [if_neg (by simpa [List.isEmpty_iff] using hne)]
    · show (match ('-' :: 'P' :: 'T' :: (ds ++ 'M' :: tail) : List Char) with
        | '-' :: 'P' :: 'T' :: rest =>
          let dsx := rest.takeWhile (fun x => x.isDigit)
          let after := rest.dropWhile (fun x => x.isDigit)
          if dsx.isEmpty then none
          else
            match after with
            | 'H' :: _ => some ((digitsVal dsx : Int) * 60)
            | 'M' :: _ => some (digitsVal dsx)
            | _ => none
        | _ => none) = some (digitsVal ds : Int)
      simp only [hM.1, hM.2]
      rw [if_neg (by simpa [List.isEmpty_iff] using hne)]
  · intro h ev hok
    unfold Event.from_caldav_event at hok
    dsimp only at hok
    rw [h] at hok
    cases hok
    rfl

theorem claim_C9_witness :
    parseTrigger (String.mk ('-' :: 'P' :: 'T' :: (['1', '5'] ++ 'H' :: [])))
        = some ((digitsVal ['1', '5'] : Int) * 60) ∧
      parseTrigger (String.mk ('-' :: 'P' :: 'T' :: (['1', '5'] ++ 'M' :: [])))
        = some (digitsVal ['1', '5']) :=
  (claim_C9 "event-9w" vevEmpty ['1', '5'] []).1 (by decide) (by decide)

/-- Claim C2, as stated, is false: `to_ical_string` is absent from the
provided sources (modelled here from the spec), and no serializer can make
every valid value round-trip, because `from_ical_string` keeps `BYDAY` only
when the decoded list is nonempty — a valid rule whose `days_of_week` is the
EMPTY list (accepted by construction, as the last conjunct shows) re-parses
with `days_of_week = None`, a different value. -/
theorem claim_C2_counterexample :
    RecurrenceRule.to_ical_string ⟨0, 1, none, none, some []⟩
        = .ok "FREQ=DAILY;INTERVAL=1;BYDAY=" ∧
      RecurrenceRule.from_ical_string "FREQ=DAILY;INTERVAL=1;BYDAY="
        = .ok ⟨0, 1, none, none, none⟩ ∧
      (⟨0, 1, none, none, none⟩ : RecurrenceRule) ≠ ⟨0, 1, none, none, some []⟩ ∧
      (mkRecurrenceRule 0 1 none none (some [])).isOk = true := by
  refine ⟨by decide, by decide, by decide, by decide⟩

/-- Claim C2 (amended): for every valid `RecurrenceRule` whose
`days_of_week` is not the empty list and whose `end_date`, when set, is a
representable timestamp with no sub-second part (the `UNTIL` wire format has
second resolution), serializing with `to_ical_string` and re-parsing with
`from_ical_string` returns an equal value; and `to_ical_string` asserts the
end_date/occurrence_count mutual exclusion before emitting, rejecting every
value violating it.  (`to_ical_string` itself is modelled from the spec, the
serializer not being among the provided sources.) -/
theorem claim_C2 (r : RecurrenceRule) (hwf : r.wf)
    (hby : r.days_of_week ≠ some [])
    (hed : ∀ t, r.end_date = some t → t.valid ∧ t.usec = 0) :
    (∃ s, RecurrenceRule.to_ical_string r = .ok s ∧
      RecurrenceRule.from_ical_string s = .ok r) ∧
    (∀ r' : RecurrenceRule, r'.end_date.isSome = true →
      r'.occurrence_count.isSome = true →
      RecurrenceRule.to_ical_string r' = .error "Only one of end_date or occurrence_count can be set") := by
  constructor
  · obtain ⟨f, i, e, c, d⟩ := r
    obtain ⟨hf, hi, hexcl, hd⟩ := hwf
    exact ⟨_, roundtrip_main f i e c d hf hi hexcl hd (by simpa using hby)
      (by simpa using hed)⟩
  · intro r' h1 h2
    unfold RecurrenceRule.to_ical_string
    rw [if_pos (by simp [h1, h2])]

theorem claim_C2_witness :
    (∃ s, RecurrenceRule.to_ical_string
        ⟨1, 2, some (mkDT 2025 12 31 0 0 0 0), none, some [2, 4]⟩ = .ok s ∧
      RecurrenceRule.from_ical_string s
        = .ok ⟨1, 2, some (mkDT 2025 12 31 0 0 0 0), none, some [2, 4]⟩) :=
  (claim_C2 ⟨1, 2, some (mkDT 2025 12 31 0 0 0 0), none, some [2, 4]⟩
    (by decide) (by decide) (by decide)).1

end ICalSpec
